import Mathlib

/-!
Verification development for the ogtools chunking / content-normalization
pipeline (src/src/core/scraper.py and src/src/core/pdf_processor.py).

Texts are embedded as `List Char`; Python machine strings are ASCII in all
inputs of interest and the embedded character predicates coincide with
Python's on that range.  Stateful loops become folds or fuelled recursion;
Python exceptions become `Except`/`Option`; the external model call is an
oracle parameter (the spec, section 4.2, explicitly treats the prompt text
and the service as external to the core).
-/

namespace OgTools

abbrev Chars := List Char

/-- Characters treated as whitespace by Python's `str.strip` and by the
regex class `\s` (ASCII range). -/
def isPyWs (c : Char) : Bool :=
  c = ' ' || c = '\t' || c = '\n' || c = '\r' || c = Char.ofNat 11 || c = Char.ofNat 12

/-- Python `str.strip()`: drop leading and trailing whitespace. -/
def pyStrip (l : Chars) : Chars :=
  ((l.dropWhile isPyWs).reverse.dropWhile isPyWs).reverse

/-- Position `i` starts a `"\n\n"` occurrence in `l` (the needle of
`markdown.rfind('\n\n', start, end)` in `chunk_markdown`). -/
def pairAt (l : Chars) (i : Nat) : Bool :=
  decide (l.get? i = some '\n' ∧ l.get? (i + 1) = some '\n')

/-- Python `markdown.rfind('\n\n', start, i + 2)` (scanning downward from
`i`): the greatest position `j` with `start ≤ j ≤ i` such that a `"\n\n"`
occurrence begins at `j`; `none` models Python's `-1`. -/
def rfindPairDown (l : Chars) (start : Nat) : Nat → Option Nat
  | 0 => if start = 0 && pairAt l 0 then some 0 else none
  | i + 1 =>
    if start ≤ i + 1 && pairAt l (i + 1) then some (i + 1)
    else rfindPairDown l start i

/-- Loop of `chunk_markdown` (scraper.py lines 62-80).  Each iteration
appends `markdown[start:end]` where `end` is `start + max_size`, pulled
back to the last blank-line break point in the window when that point lies
beyond the window's midpoint; the next iteration restarts `overlap`
characters before `end`.  Fuel bounds the iteration count; every theorem
below supplies enough fuel for the loop to run to completion. -/
def chunkLoop (text : Chars) (maxSize overlap : Nat) : Nat → Nat → List Chars
  | _, 0 => []
  | start, fuel + 1 =>
    if start < text.length then
      let end0 := start + maxSize
      let e :=
        if end0 < text.length then
          match rfindPairDown text start (end0 - 2) with
          | some bp => if start + maxSize / 2 < bp then bp else end0
          | none => end0
        else end0
      let chunk := (text.take e).drop start
      if text.length ≤ e then [chunk]
      else chunk :: chunkLoop text maxSize overlap (e - overlap) fuel
    else []

/-- `chunk_markdown` (scraper.py lines 58-81): texts of length at most
`max_size` are returned whole as a single chunk; longer texts go through
`chunkLoop`. -/
def chunkMarkdown (text : Chars) (maxSize overlap : Nat) : List Chars :=
  if text.length ≤ maxSize then [text]
  else chunkLoop text maxSize overlap 0 text.length

/-- Reconstruction reading of the spec: the first segment whole, every
later segment with its leading `overlap` characters removed, concatenated
in emission order. -/
def reconOverlap (overlap : Nat) : List Chars → Chars
  | [] => []
  | c :: cs => c ++ (cs.map (List.drop overlap)).flatten

lemma rfindPairDown_le (l : Chars) (start : Nat) :
    ∀ i bp, rfindPairDown l start i = some bp → start ≤ bp ∧ bp ≤ i := by
  intro i
  induction i with
  | zero =>
    intro bp h
    unfold rfindPairDown at h
    by_cases hc : (start = 0 && pairAt l 0) = true
    · simp only [hc, if_true, Option.some.injEq] at h
      have hs : start = 0 := by simpa using ((Bool.and_eq_true _ _).mp hc).1
      omega
    · simp [hc] at h
  | succ i ih =>
    intro bp h
    unfold rfindPairDown at h
    by_cases hc : (start ≤ i + 1 && pairAt l (i + 1)) = true
    · simp only [hc, if_true, Option.some.injEq] at h
      have hs : start ≤ i + 1 := by simpa using ((Bool.and_eq_true _ _).mp hc).1
      omega
    · simp only [hc, if_false] at h
      obtain ⟨h1, h2⟩ := ih bp h
      exact ⟨h1, Nat.le_succ_of_le h2⟩

lemma take_drop_append (l : Chars) (a e : Nat) (h : a ≤ e) :
    (l.take e).drop a ++ l.drop e = l.drop a := by
  rw [List.drop_take]
  have he : l.drop e = (l.drop a).drop (e - a) := by
    rw [List.drop_drop]
    congr 1
    omega
  rw [he, List.take_append_drop]

/-- Key step facts of one `chunkLoop` iteration: the chosen cut `e`
strictly exceeds `start + overlap`. -/
lemma chunkLoop_cut_gt (text : Chars) (maxSize overlap start : Nat)
    (hm : 0 < maxSize) (ho : overlap ≤ maxSize / 2) :
    start + overlap <
      (if start + maxSize < text.length then
        match rfindPairDown text start (start + maxSize - 2) with
        | some bp => if start + maxSize / 2 < bp then bp else start + maxSize
        | none => start + maxSize
      else start + maxSize) := by
  have hhalf : maxSize / 2 < maxSize := Nat.div_lt_self hm (by norm_num)
  by_cases h1 : start + maxSize < text.length
  · simp only [h1, if_true]
    cases hbp : rfindPairDown text start (start + maxSize - 2) with
    | none =>
      simp only [hbp]
      exact Nat.add_lt_add_left (by omega) start
    | some bp =>
      simp only [hbp]
      by_cases h2 : start + maxSize / 2 < bp
      · simp only [h2, if_true]
        omega
      · simp only [h2, if_false]
        exact Nat.add_lt_add_left (by omega) start
  · simp only [h1, if_false]
    omega

lemma chunkLoop_drop_flatten (text : Chars) (maxSize overlap : Nat)
    (hm : 0 < maxSize) (ho : overlap ≤ maxSize / 2) :
    ∀ fuel start, text.length - start ≤ fuel → start < text.length →
      ((chunkLoop text maxSize overlap start fuel).map (List.drop overlap)).flatten =
        text.drop (start + overlap) := by
  intro fuel
  induction fuel with
  | zero => intro start hf hs; omega
  | succ fuel ih =>
    intro start hf hs
    unfold chunkLoop
    simp only [hs, if_true]
    have hcut := chunkLoop_cut_gt text maxSize overlap start hm ho
    set e :=
      (if start + maxSize < text.length then
        match rfindPairDown text start (start + maxSize - 2) with
        | some bp => if start + maxSize / 2 < bp then bp else start + maxSize
        | none => start + maxSize
      else start + maxSize) with he
    by_cases hend : text.length ≤ e
    · simp only [hend, if_true, List.map_cons, List.map_nil, List.flatten_cons,
        List.flatten_nil, List.append_nil]
      rw [List.take_of_length_le hend, List.drop_drop]
    · simp only [hend, if_false, List.map_cons, List.flatten_cons]
      have hrec := ih (e - overlap) (by omega) (by omega)
      rw [hrec]
      have hoe : e - overlap + overlap = e := by omega
      rw [hoe, List.drop_drop]
      exact take_drop_append text (start + overlap) e (by omega)

/-- Reconstruction for the markdown segmenter: the first chunk, followed by
every later chunk with its leading `overlap` characters removed, rebuilds
the suffix of the text from `start`. -/
lemma reconOverlap_chunkLoop (text : Chars) (maxSize overlap : Nat)
    (hm : 0 < maxSize) (ho : overlap ≤ maxSize / 2) :
    ∀ fuel start, text.length - start ≤ fuel → start < text.length →
      reconOverlap overlap (chunkLoop text maxSize overlap start fuel) =
        text.drop start := by
  intro fuel
  cases fuel with
  | zero => intro start hf hs; omega
  | succ fuel =>
    intro start hf hs
    unfold chunkLoop
    simp only [hs, if_true]
    have hcut := chunkLoop_cut_gt text maxSize overlap start hm ho
    set e :=
      (if start + maxSize < text.length then
        match rfindPairDown text start (start + maxSize - 2) with
        | some bp => if start + maxSize / 2 < bp then bp else start + maxSize
        | none => start + maxSize
      else start + maxSize) with he
    by_cases hend : text.length ≤ e
    · simp only [hend, if_true, reconOverlap, List.map_nil, List.flatten_nil,
        List.append_nil]
      rw [List.take_of_length_le hend]
    · simp only [hend, if_false, reconOverlap]
      rw [chunkLoop_drop_flatten text maxSize overlap hm ho fuel (e - overlap)
        (by omega) (by omega)]
      have hoe : e - overlap + overlap = e := by omega
      rw [hoe]
      exact take_drop_append text start e (by omega)

lemma rfindPairDown_none (l : Chars) (start : Nat)
    (h : ∀ j, pairAt l j = false) : ∀ i, rfindPairDown l start i = none := by
  intro i
  induction i with
  | zero => simp [rfindPairDown, h 0]
  | succ i ih => simp [rfindPairDown, h (i + 1), ih]

lemma rfindPairDown_spot (l : Chars) (start m : Nat)
    (hp : pairAt l m = true) (hs : start ≤ m) :
    ∀ d, (∀ j, m < j → j ≤ m + d → pairAt l j = false) →
      rfindPairDown l start (m + d) = some m := by
  intro d
  induction d with
  | zero =>
    intro _
    cases m with
    | zero =>
      have hs0 : start = 0 := Nat.le_zero.mp hs
      simp [rfindPairDown, hs0, hp]
    | succ k => simp [rfindPairDown, hs, hp]
  | succ d ih =>
    intro hno
    have hstep : pairAt l (m + (d + 1)) = false := hno _ (by omega) (by omega)
    have hmd : m + (d + 1) = (m + d) + 1 := by omega
    rw [hmd]
    unfold rfindPairDown
    rw [show (m + d) + 1 = m + (d + 1) from by omega, hstep]
    simp only [Bool.and_false, Bool.false_eq_true, if_false]
    exact ih fun j h1 h2 => hno j h1 (by omega)

/-- One `chunkLoop` iteration in the case where the blank-line search finds
nothing, so the cut stays at `start + maxSize`. -/
lemma chunkLoop_step_nobreak (text : Chars) (m o start fuel : Nat)
    (hs : start < text.length)
    (hrf : rfindPairDown text start (start + m - 2) = none) :
    chunkLoop text m o start (fuel + 1) =
      if text.length ≤ start + m then [(text.take (start + m)).drop start]
      else (text.take (start + m)).drop start ::
        chunkLoop text m o (start + m - o) fuel := by
  conv_lhs => unfold chunkLoop
  simp only [hs, if_true]
  by_cases h1 : start + m < text.length
  · simp only [h1, if_true, hrf, show ¬(text.length ≤ start + m) from by omega,
      if_false]
  · simp only [h1, if_false, show text.length ≤ start + m from by omega, if_true]

/-- Claim C3, amended: on a 45,000-character markdown document that
contains no blank-line (`"\n\n"`) break point, `chunk_markdown` with
`max_size = 20000`, `overlap = 1000` emits exactly three segments whose
extents are `[0,20000)`, `[19000,39000)`, `[38000,45000)`. -/
theorem chunkMarkdown_45000_noBlank (text : Chars)
    (hlen : text.length = 45000) (hnb : ∀ j, pairAt text j = false) :
    chunkMarkdown text 20000 1000 =
      [(text.take 20000).drop 0, (text.take 39000).drop 19000,
       (text.take 58000).drop 38000] := by
  unfold chunkMarkdown
  rw [hlen]
  norm_num
  rw [show (45000 : Nat) = 44999 + 1 from rfl,
    chunkLoop_step_nobreak text 20000 1000 0 44999 (by omega)
      (rfindPairDown_none text 0 hnb _)]
  rw [hlen]
  norm_num
  rw [show (44999 : Nat) = 44998 + 1 from rfl,
    chunkLoop_step_nobreak text 20000 1000 19000 44998 (by omega)
      (rfindPairDown_none text 19000 hnb _)]
  rw [hlen]
  norm_num
  rw [show (44998 : Nat) = 44997 + 1 from rfl,
    chunkLoop_step_nobreak text 20000 1000 38000 44997 (by omega)
      (rfindPairDown_none text 38000 hnb _)]
  rw [hlen]
  norm_num

lemma rfindPairDown_none_range (l : Chars) (start : Nat) :
    ∀ i, (∀ j, start ≤ j → j ≤ i → pairAt l j = false) →
      rfindPairDown l start i = none := by
  intro i
  induction i with
  | zero =>
    intro h
    unfold rfindPairDown
    by_cases hs : start = 0
    · simp [hs, h 0 (by omega) (by omega)]
    · simp [hs]
  | succ i ih =>
    intro h
    unfold rfindPairDown
    by_cases hs : start ≤ i + 1
    · simp only [h (i + 1) hs (le_refl _), Bool.and_false, Bool.false_eq_true,
        if_false]
      exact ih fun j h1 h2 => h j h1 (by omega)
    · simp only [decide_eq_false hs, Bool.false_and, Bool.false_eq_true, if_false]
      exact ih fun j h1 h2 => h j h1 (by omega)

/-- General one-step evaluation of `chunkLoop` once the cut position `e`
has been computed. -/
lemma chunkLoop_step_eq (text : Chars) (m o start fuel e : Nat)
    (hs : start < text.length)
    (he : (if start + m < text.length then
        match rfindPairDown text start (start + m - 2) with
        | some bp => if start + m / 2 < bp then bp else start + m
        | none => start + m
      else start + m) = e) :
    chunkLoop text m o start (fuel + 1) =
      if text.length ≤ e then [(text.take e).drop start]
      else (text.take e).drop start :: chunkLoop text m o (e - o) fuel := by
  conv_lhs => unfold chunkLoop
  simp only [hs, if_true, he]

/-- The 45,000-character counterexample document: all `'a'` except for
blank-line breaks starting at positions 10001 and 19999. -/
def c3char (j : Nat) : Char :=
  if j = 10001 ∨ j = 10002 ∨ j = 19999 ∨ j = 20000 then '\n' else 'a'

/-- Concrete 45,000-character markdown document whose blank lines are
placed so that the midpoint break-point rule fires and shortens chunks. -/
def docC3 : Chars := (List.range 45000).map c3char

lemma docC3_length : docC3.length = 45000 := by
  simp [docC3]

lemma docC3_get (j : Nat) :
    docC3.get? j = if j < 45000 then some (c3char j) else none := by
  unfold docC3
  rw [List.get?_map]
  by_cases h : j < 45000
  · rw [List.get?_range h]
    simp [h]
  · rw [List.get?_eq_none.mpr (by simpa using Nat.le_of_not_lt h)]
    simp [h]

lemma c3char_eq_nl (j : Nat) :
    c3char j = '\n' ↔ (j = 10001 ∨ j = 10002 ∨ j = 19999 ∨ j = 20000) := by
  unfold c3char
  split <;> rename_i h
  · simpa using h
  · constructor
    · intro hc
      exact absurd hc (by decide)
    · intro hc
      exact absurd hc h

lemma pairAt_docC3 (i : Nat) :
    pairAt docC3 i = true ↔ (i = 10001 ∨ i = 19999) := by
  rw [pairAt, decide_eq_true_iff, docC3_get, docC3_get]
  by_cases h1 : i < 45000
  · by_cases h2 : i + 1 < 45000
    · simp only [h1, h2, if_true, Option.some.injEq]
      rw [c3char_eq_nl, c3char_eq_nl]
      omega
    · simp only [h1, h2, if_true, if_false]
      constructor
      · rintro ⟨-, hc⟩
        exact absurd hc (by simp)
      · intro h
        omega
  · simp only [h1, if_false]
    constructor
    · rintro ⟨hc, -⟩
      exact absurd hc (by simp)
    · intro h
      omega

lemma pairAt_docC3_false (j : Nat) (h1 : j ≠ 10001) (h2 : j ≠ 19999) :
    pairAt docC3 j = false := by
  cases h : pairAt docC3 j with
  | false => rfl
  | true => exact absurd ((pairAt_docC3 j).mp h) (by omega)

lemma pairAt_docC3_10001 : pairAt docC3 10001 = true :=
  (pairAt_docC3 10001).mpr (Or.inl rfl)

lemma pairAt_docC3_19999 : pairAt docC3 19999 = true :=
  (pairAt_docC3 19999).mpr (Or.inr rfl)

lemma docC3_rfind1 : rfindPairDown docC3 0 19998 = some 10001 := by
  have h := rfindPairDown_spot docC3 0 10001 pairAt_docC3_10001 (by omega) 9997
    (fun j hj1 hj2 => pairAt_docC3_false j (by omega) (by omega))
  simpa using h

lemma docC3_rfind2 : rfindPairDown docC3 9001 28999 = some 19999 := by
  have h := rfindPairDown_spot docC3 9001 19999 pairAt_docC3_19999 (by omega) 9000
    (fun j hj1 hj2 => pairAt_docC3_false j (by omega) (by omega))
  simpa using h

lemma docC3_rfind3 : rfindPairDown docC3 18999 38997 = some 19999 := by
  have h := rfindPairDown_spot docC3 18999 19999 pairAt_docC3_19999 (by omega) 18998
    (fun j hj1 hj2 => pairAt_docC3_false j (by omega) (by omega))
  simpa using h

lemma docC3_chunks :
    chunkMarkdown docC3 20000 1000 =
      [(docC3.take 10001).drop 0, (docC3.take 19999).drop 9001,
       (docC3.take 38999).drop 18999, (docC3.take 57999).drop 37999] := by
  unfold chunkMarkdown
  rw [docC3_length, if_neg (by norm_num)]
  rw [show (45000 : Nat) = 44999 + 1 from rfl,
    chunkLoop_step_eq docC3 20000 1000 0 44999 10001
      (by rw [docC3_length]; norm_num)
      (by
        rw [docC3_length, if_pos (by norm_num),
          show (0 + 20000 - 2 : Nat) = 19998 from rfl, docC3_rfind1]
        norm_num)]
  rw [docC3_length, if_neg (by norm_num), show (10001 - 1000 : Nat) = 9001 from rfl]
  rw [show (44999 : Nat) = 44998 + 1 from rfl,
    chunkLoop_step_eq docC3 20000 1000 9001 44998 19999
      (by rw [docC3_length]; norm_num)
      (by
        rw [docC3_length, if_pos (by norm_num),
          show (9001 + 20000 - 2 : Nat) = 28999 from rfl, docC3_rfind2]
        norm_num)]
  rw [docC3_length, if_neg (by norm_num), show (19999 - 1000 : Nat) = 18999 from rfl]
  rw [show (44998 : Nat) = 44997 + 1 from rfl,
    chunkLoop_step_eq docC3 20000 1000 18999 44997 38999
      (by rw [docC3_length]; norm_num)
      (by
        rw [docC3_length, if_pos (by norm_num),
          show (18999 + 20000 - 2 : Nat) = 38997 from rfl, docC3_rfind3]
        norm_num)]
  rw [docC3_length, if_neg (by norm_num), show (38999 - 1000 : Nat) = 37999 from rfl]
  rw [show (44997 : Nat) = 44996 + 1 from rfl,
    chunkLoop_step_eq docC3 20000 1000 37999 44996 57999
      (by rw [docC3_length]; norm_num)
      (by rw [docC3_length, if_neg (by norm_num)])]
  rw [docC3_length, if_pos (by norm_num)]

/-- Claim C2 (amended): for the markdown Segmenter `chunk_markdown` (with
the sane parameter relation `overlap ≤ maxSize / 2`, satisfied by the
defaults 1000 and 20000), dropping the leading `overlap` characters of
every segment after the first and concatenating the segments in emission
order reconstructs the input exactly.  The PDF segmenter
`chunk_pdf_content` does not satisfy this (see the counterexample): it
trims each chunk and re-joins pages with inserted blank lines. -/
theorem claim_C2_amended (text : Chars) (maxSize overlap : Nat)
    (hm : 0 < maxSize) (ho : overlap ≤ maxSize / 2) :
    reconOverlap overlap (chunkMarkdown text maxSize overlap) = text := by
  by_cases hl : text.length ≤ maxSize
  · simp [chunkMarkdown, hl, reconOverlap]
  · unfold chunkMarkdown
    rw [if_neg hl]
    rw [reconOverlap_chunkLoop text maxSize overlap hm ho text.length 0
      (by omega) (by omega)]
    exact List.drop_zero text

/-- Witness for Claim C2's amended theorem at a concrete input: a 30
character text split with `maxSize = 10`, `overlap = 3`. -/
theorem claim_C2_witness :
    reconOverlap 3 (chunkMarkdown "abcdefghijklmnopqrstuvwxyz0123".data 10 3) =
      "abcdefghijklmnopqrstuvwxyz0123".data :=
  claim_C2_amended "abcdefghijklmnopqrstuvwxyz0123".data 10 3 (by norm_num)
    (by norm_num)

/-- Claim C3 (amended): a 45,000-character markdown document containing no
blank-line (`"\n\n"`) break point, segmented with `maxSize = 20000` and
`overlap = 1000`, yields exactly 3 segments (so their 1-based emission
positions are 1, 2, 3 in order) and the last segment's length is at most
`maxSize`.  The counterexample shows the unamended claim (exactly 3
segments for every 45,000-character document) is false: documents with
suitably placed blank lines yield 4 segments. -/
theorem claim_C3_amended (text : Chars) (hlen : text.length = 45000)
    (hnb : ∀ j, pairAt text j = false) :
    (chunkMarkdown text 20000 1000).length = 3 ∧
      ((chunkMarkdown text 20000 1000).getLastD []).length ≤ 20000 := by
  rw [chunkMarkdown_45000_noBlank text hlen hnb]
  refine ⟨rfl, ?_⟩
  simp [List.getLastD, hlen]

/-- Witness for Claim C3's amended theorem: the all-`'a'` document of
45,000 characters. -/
theorem claim_C3_witness :
    (chunkMarkdown (List.replicate 45000 'a') 20000 1000).length = 3 ∧
      ((chunkMarkdown (List.replicate 45000 'a') 20000 1000).getLastD
        []).length ≤ 20000 :=
  claim_C3_amended (List.replicate 45000 'a') (by rw [List.length_replicate])
    (fun j => by
    unfold pairAt
    apply decide_eq_false
    rintro ⟨h1, -⟩
    have hm := List.get?_mem h1
    rw [List.mem_replicate] at hm
    exact absurd hm.2 (by decide))

/-- Claim C3 counterexample: `docC3` is a concrete 45,000-character
markdown document for which `chunk_markdown` with `maxSize = 20000`,
`overlap = 1000` produces 4 segments, not 3 as the claim states. -/
theorem claim_C3_counterexample :
    docC3.length = 45000 ∧ (chunkMarkdown docC3 20000 1000).length = 4 := by
  refine ⟨docC3_length, ?_⟩
  rw [docC3_chunks]
  rfl

/-- Python's `needle in hay` on strings. -/
def hasSub (needle : Chars) : Chars → Bool
  | [] => needle.isEmpty
  | c :: t => needle.isPrefixOf (c :: t) || hasSub needle t

/-- Worker for Python `str.split(sep)` with a non-empty separator:
non-overlapping occurrences scanned left to right.  Fuel is the length of
the remaining text plus one, which always suffices. -/
def pySplitGo (sep : Chars) : Nat → Chars → Chars → List Chars
  | 0, acc, l => [acc.reverse ++ l]
  | _ + 1, acc, [] => [acc.reverse]
  | fuel + 1, acc, c :: rest =>
    if sep.isPrefixOf (c :: rest) then
      acc.reverse :: pySplitGo sep fuel [] ((c :: rest).drop sep.length)
    else pySplitGo sep fuel (c :: acc) rest

/-- Python `str.split(sep)` for a non-empty separator. -/
def pySplit (sep l : Chars) : List Chars :=
  pySplitGo sep (l.length + 1) [] l

/-- Decimal digits of a natural number, most significant first (worker). -/
def natToCharsAux : Nat → Nat → Chars
  | 0, _ => []
  | fuel + 1, n =>
    if n = 0 then [] else natToCharsAux fuel (n / 10) ++ [Char.ofNat (48 + n % 10)]

/-- Python `str(n)` for a natural number. -/
def natToChars (n : Nat) : Chars :=
  if n = 0 then ['0'] else natToCharsAux (n + 1) n

/-- Python `min(l)` for a non-empty list (0 is never used: callers guard). -/
def pyMinL (l : List Nat) : Nat := l.foldl min (l.headD 0)

/-- Python `max(l)` for a non-empty list. -/
def pyMaxL (l : List Nat) : Nat := l.foldl max (l.headD 0)

/-- Python `str.isdigit()` (ASCII): non-empty and all decimal digits. -/
def pyIsDigits (l : Chars) : Bool :=
  !l.isEmpty && l.all (fun c => c.isDigit)

/-- Python `int(s)` on a digit string. -/
def parseDecimal (l : Chars) : Nat :=
  l.foldl (fun a c => a * 10 + (c.toNat - 48)) 0

/-- A chunk produced by `chunk_pdf_content` (pdf_processor.py lines
79-157): the dict `{"content": …, "page_range": …, "chunk_index": …}`. -/
structure PdfChunk where
  content : Chars
  pageRange : Chars
  chunkIndex : Nat
deriving DecidableEq

/-- Page-range label of `chunk_pdf_content`: `"min-max"` for several
distinct pages, the single page number for one, `"unknown"` for none. -/
def pageRangeOf (pages : List Nat) : Chars :=
  match pages with
  | [] => "unknown".data
  | [p] => natToChars p
  | _ => natToChars (pyMinL pages) ++ "-".data ++ natToChars (pyMaxL pages)

/-- Page-number bookkeeping of `chunk_pdf_content` (pdf_processor.py lines
127-140): pull the page number out of a `"--- Page N ---"` marker and
append it to `current_pages` if new. -/
def extractPageNum (pageText : Chars) (pages : List Nat) : List Nat :=
  if hasSub "--- Page ".data pageText then
    let split1 := pySplit "--- Page ".data pageText
    let parts := if split1.length > 1 then (split1.get? 1).getD [] else []
    if parts ≠ [] ∧ hasSub "---".data parts then
      let pageNumStr := pyStrip ((pySplit "---".data parts).headD [])
      if pyIsDigits pageNumStr then
        let pageNum := parseDecimal pageNumStr
        if pageNum ∈ pages then pages else pages ++ [pageNum]
      else pages
    else pages
  else pages

/-- One iteration of the page loop of `chunk_pdf_content` (pdf_processor.py
lines 97-140).  State: emitted chunks, current accumulator, page numbers
seen in the accumulator, next chunk index.  Note the Python slice quirk:
`current_chunk[-overlap:]` is the whole string when `overlap = 0`. -/
def pdfStep (maxSize overlap : Nat)
    (st : List PdfChunk × Chars × List Nat × Nat) (ip : Nat × Chars) :
    List PdfChunk × Chars × List Nat × Nat :=
  let chunks := st.1
  let cur := st.2.1
  let curPages := st.2.2.1
  let idx := st.2.2.2
  let i := ip.1
  let pageContent := ip.2
  if (pyStrip pageContent).isEmpty then st
  else
    let pageText := if i = 0 then pageContent else "--- Page ".data ++ pageContent
    let st1 :=
      if (cur ++ pageText).length > maxSize ∧ cur ≠ [] then
        let newChunks := chunks ++ [⟨pyStrip cur, pageRangeOf curPages, idx⟩]
        let overlapText :=
          if cur.length > overlap then
            (if overlap = 0 then cur else cur.drop (cur.length - overlap))
          else cur
        let newCur := overlapText ++ "\n\n".data ++ pageText
        let newPages : List Nat :=
          match curPages with
          | [] => []
          | _ => [curPages.getLastD 0]
        (newChunks, newCur, newPages, idx + 1)
      else
        (chunks, (if cur ≠ [] then cur ++ "\n\n".data ++ pageText else pageText),
          curPages, idx)
    (st1.1, st1.2.1, extractPageNum pageText st1.2.2.1, st1.2.2.2)

/-- `chunk_pdf_content` (pdf_processor.py lines 79-157).  The `page_info`
list is only ever inspected through its length, so it is embedded as
`pageInfoLen`; the source defaults are `max_size = 15000`,
`overlap = 1000`. -/
def chunkPdfContent (text : Chars) (pageInfoLen : Nat)
    (maxSize overlap : Nat) : List PdfChunk :=
  if text.length ≤ maxSize then
    [⟨text,
      (if pageInfoLen ≠ 0 then "1-".data ++ natToChars pageInfoLen
       else "1".data), 1⟩]
  else
    let pages := pySplit "--- Page ".data text
    let st := pages.enum.foldl (pdfStep maxSize overlap) ([], [], [], 1)
    if st.2.1 ≠ [] then
      st.1 ++ [⟨pyStrip st.2.1, pageRangeOf st.2.2.1, st.2.2.2⟩]
    else st.1

/-- Claim C2 counterexample: for the PDF segmenter, dropping the leading
`overlap` characters of every segment after the first and concatenating
does not reconstruct the input: chunks are trimmed and pages are re-joined
with an inserted blank line.  Concrete input: a two-page text of 39
characters, `max_size = 25`, `overlap = 5`. -/
theorem claim_C2_counterexample :
    ("--- Page 1 ---\nAAAA\n--- Page 2 ---\nBBBB".data).length > 25 ∧
      reconOverlap 5
          ((chunkPdfContent "--- Page 1 ---\nAAAA\n--- Page 2 ---\nBBBB".data
            2 25 5).map PdfChunk.content) ≠
        "--- Page 1 ---\nAAAA\n--- Page 2 ---\nBBBB".data := by
  decide

/-- Claim C6 (amended): for input of length at most `maxSize`, both
segmenters return exactly one segment whose content equals the input
verbatim — not trimmed, contrary to the claim (see the counterexample). -/
theorem claim_C6_amended (text : Chars) (maxSize overlap pageInfoLen : Nat)
    (h : text.length ≤ maxSize) :
    chunkMarkdown text maxSize overlap = [text] ∧
      chunkPdfContent text pageInfoLen maxSize overlap =
        [⟨text,
          (if pageInfoLen ≠ 0 then "1-".data ++ natToChars pageInfoLen
           else "1".data), 1⟩] := by
  constructor
  · unfold chunkMarkdown
    rw [if_pos h]
  · unfold chunkPdfContent
    rw [if_pos h]

/-- Witness for Claim C6's amended theorem at the concrete input `" a "`
with `maxSize = 10`, `overlap = 3`, two pages. -/
theorem claim_C6_witness :
    chunkMarkdown " a ".data 10 3 = [" a ".data] ∧
      chunkPdfContent " a ".data 2 10 3 =
        [⟨" a ".data,
          (if (2 : Nat) ≠ 0 then "1-".data ++ natToChars 2 else "1".data), 1⟩] :=
  claim_C6_amended " a ".data 10 3 2 (by norm_num)

/-- Claim C6 counterexample: the single segment returned for short input
keeps surrounding whitespace, so its content is not the trimmed input. -/
theorem claim_C6_counterexample :
    chunkMarkdown " a ".data 10 3 ≠ [pyStrip " a ".data] := by
  decide

/-! JSON model.  `json.loads` / `json.dumps` are Python standard-library
collaborators of the Response Parser (spec section 4.3 calls the step a
"direct JSON parse"); they are modelled here as a standard JSON value
type and a strict recursive-descent reader.  JSON numbers are modelled as
integers; float literals (fraction or exponent part) are rejected by the
model and are outside its scope, as is Python's tolerance for lone
surrogate escapes. -/

inductive JVal where
  | jnull
  | jbool (b : Bool)
  | jnum (n : Int)
  | jstr (s : Chars)
  | jarr (xs : List JVal)
  | jobj (fs : List (Chars × JVal))

/-- JSON whitespace accepted between tokens by `json.loads`. -/
def isJsonWs (c : Char) : Bool :=
  c = ' ' || c = '\t' || c = '\n' || c = '\r'

def skipWsJ (l : Chars) : Chars := l.dropWhile isJsonWs

/-- Value of one hexadecimal digit. -/
def hexVal (c : Char) : Option Nat :=
  if '0' ≤ c ∧ c ≤ '9' then some (c.toNat - 48)
  else if 'a' ≤ c ∧ c ≤ 'f' then some (c.toNat - 87)
  else if 'A' ≤ c ∧ c ≤ 'F' then some (c.toNat - 55)
  else none

def parseHex4 : Chars → Option (Nat × Chars)
  | a :: b :: c :: d :: rest =>
    match hexVal a, hexVal b, hexVal c, hexVal d with
    | some x, some y, some z, some w => some ((((x * 16 + y) * 16 + z) * 16 + w), rest)
    | _, _, _, _ => none
  | _ => none

/-- Body of a JSON string after the opening quote, with escape handling;
returns the decoded characters and the rest after the closing quote. -/
def parseStrBody : Nat → Chars → Option (Chars × Chars)
  | 0, _ => none
  | _ + 1, [] => none
  | fuel + 1, c :: rest =>
    if c = '"' then some ([], rest)
    else if c = '\\' then
      match rest with
      | [] => none
      | e :: rest2 =>
        let dec : Option (Char × Chars) :=
          if e = '"' then some ('"', rest2)
          else if e = '\\' then some ('\\', rest2)
          else if e = '/' then some ('/', rest2)
          else if e = 'b' then some (Char.ofNat 8, rest2)
          else if e = 'f' then some (Char.ofNat 12, rest2)
          else if e = 'n' then some ('\n', rest2)
          else if e = 'r' then some ('\r', rest2)
          else if e = 't' then some ('\t', rest2)
          else if e = 'u' then
            match parseHex4 rest2 with
            | none => none
            | some (code, rest3) =>
              if 0xD800 ≤ code ∧ code ≤ 0xDBFF then
                match rest3 with
                | '\\' :: 'u' :: rest4 =>
                  match parseHex4 rest4 with
                  | some (lo, rest5) =>
                    if 0xDC00 ≤ lo ∧ lo ≤ 0xDFFF then
                      some (Char.ofNat (0x10000 + (code - 0xD800) * 0x400 + (lo - 0xDC00)), rest5)
                    else none
                  | none => none
                | _ => none
              else if 0xDC00 ≤ code ∧ code ≤ 0xDFFF then none
              else some (Char.ofNat code, rest3)
          else none
        match dec with
        | none => none
        | some (ch, r) =>
          match parseStrBody fuel r with
          | none => none
          | some (sb, r2) => some (ch :: sb, r2)
    else if c.toNat < 32 then none
    else
      match parseStrBody fuel rest with
      | none => none
      | some (sb, r2) => some (c :: sb, r2)

/-- Integer-literal tail of a JSON number (strict: no leading zeros, and a
fraction or exponent part makes the model reject the input). -/
def parseNumTail (neg : Bool) (l : Chars) : Option (JVal × Chars) :=
  match l with
  | [] => none
  | c :: _ =>
    if !c.isDigit then none
    else
      let ds := l.takeWhile (fun c => c.isDigit)
      let rest := l.dropWhile (fun c => c.isDigit)
      if ds.length > 1 && ds.headD '0' = '0' then none
      else
        match rest with
        | '.' :: _ => none
        | 'e' :: _ => none
        | 'E' :: _ => none
        | _ =>
          let v : Int := Int.ofNat (parseDecimal ds)
          some (.jnum (if neg then -v else v), rest)

/-- Insert with Python-dict semantics: overwrite in place when the key is
already present, otherwise append. -/
def objInsert (fs : List (Chars × JVal)) (k : Chars) (v : JVal) :
    List (Chars × JVal) :=
  match fs with
  | [] => [(k, v)]
  | (k', v') :: t => if k' = k then (k', v) :: t else (k', v') :: objInsert t k v

/-- Parser mode: a plain value, the element loop of an array, or the
member loop of an object. -/
inductive PMode where
  | val
  | arrItems (acc : List JVal)
  | objItems (acc : List (Chars × JVal))

/-- Recursive-descent JSON reader (model of `json.loads`), fuelled so that
every recursion is structural and kernel-reducible. -/
def parseGo : Nat → PMode → Chars → Option (JVal × Chars)
  | 0, _, _ => none
  | fuel + 1, .val, l =>
    match skipWsJ l with
    | [] => none
    | c :: rest =>
      if c = '"' then
        match parseStrBody (rest.length + 1) rest with
        | some (sb, r) => some (.jstr sb, r)
        | none => none
      else if c = '[' then
        match skipWsJ rest with
        | ']' :: r => some (.jarr [], r)
        | other => parseGo fuel (.arrItems []) other
      else if c = Char.ofNat 123 then
        match skipWsJ rest with
        | r =>
          if r.headD ' ' = Char.ofNat 125 then some (.jobj [], r.tail)
          else parseGo fuel (.objItems []) r
      else if c = 't' then
        (if "rue".data.isPrefixOf rest then some (.jbool true, rest.drop 3) else none)
      else if c = 'f' then
        (if "alse".data.isPrefixOf rest then some (.jbool false, rest.drop 4) else none)
      else if c = 'n' then
        (if "ull".data.isPrefixOf rest then some (.jnull, rest.drop 3) else none)
      else if c = '-' then parseNumTail true rest
      else if c.isDigit then parseNumTail false (c :: rest)
      else none
  | fuel + 1, .arrItems acc, l =>
    match parseGo fuel .val l with
    | none => none
    | some (v, r) =>
      match skipWsJ r with
      | ',' :: r2 => parseGo fuel (.arrItems (acc ++ [v])) r2
      | ']' :: r2 => some (.jarr (acc ++ [v]), r2)
      | _ => none
  | fuel + 1, .objItems acc, l =>
    match skipWsJ l with
    | '"' :: kr =>
      match parseStrBody (kr.length + 1) kr with
      | none => none
      | some (k, r1) =>
        match skipWsJ r1 with
        | ':' :: r2 =>
          match parseGo fuel .val r2 with
          | none => none
          | some (v, r3) =>
            match skipWsJ r3 with
            | ',' :: r4 => parseGo fuel (.objItems (objInsert acc k v)) r4
            | c :: r4 =>
              if c = Char.ofNat 125 then some (.jobj (objInsert acc k v), r4)
              else none
            | [] => none
        | _ => none
    | _ => none

/-- Model of `json.loads`: parse one value and require only whitespace
after it. -/
def jsonParse (l : Chars) : Option JVal :=
  match parseGo (2 * l.length + 2) .val l with
  | some (v, rest) => if (skipWsJ rest).isEmpty then some v else none
  | none => none

/-- Worker for `re.sub(r'```json\s*', '', content)` (pdf_processor.py line
314): remove every occurrence of three backticks + `json` together with
the whitespace run that follows, scanning left to right. -/
def fenceOpenSubGo : Nat → Chars → Chars
  | 0, l => l
  | _ + 1, [] => []
  | fuel + 1, c :: rest =>
    if "```json".data.isPrefixOf (c :: rest) then
      fenceOpenSubGo fuel (((c :: rest).drop 7).dropWhile isPyWs)
    else c :: fenceOpenSubGo fuel rest

def fenceOpenSub (l : Chars) : Chars := fenceOpenSubGo (l.length + 1) l

/-- Model of `re.sub(r'```\s*$', '', content)` (pdf_processor.py line
315): remove a final three-backtick marker together with trailing
whitespace (the `$` anchor also matches before a final newline, which the
greedy `\s*` subsumes). -/
def fenceCloseSub (l : Chars) : Chars :=
  if "```".data.isPrefixOf (l.reverse.dropWhile isPyWs) then
    ((l.reverse.dropWhile isPyWs).drop 3).reverse
  else l

/-- Response preprocessing of `extract_chapters_with_gemini`
(pdf_processor.py lines 312-315): strip, then the two fence removals. -/
def preprocess (raw : Chars) : Chars :=
  fenceCloseSub (fenceOpenSub (pyStrip raw))

/-- First index of a character (model of Python `str.find`). -/
def idxOfGo (c : Char) : Chars → Nat → Option Nat
  | [], _ => none
  | x :: t, i => if x = c then some i else idxOfGo c t (i + 1)

def firstIndexOf (c : Char) (l : Chars) : Option Nat := idxOfGo c l 0

/-- Last index of a character (model of Python `str.rfind`). -/
def lastIndexOf (c : Char) (l : Chars) : Option Nat :=
  match firstIndexOf c l.reverse with
  | none => none
  | some k => some (l.length - 1 - k)

/-- Substring from the first `a` to the last `b` when the latter comes
after the former.  This is both the value of the greedy multi-line regex
match `a.*b` (pdf_processor.py lines 327-336) and of the
`find`/`rfind` bracket scan (lines 341-352). -/
def firstLastSlice (a b : Char) (l : Chars) : Option Chars :=
  match firstIndexOf a l, lastIndexOf b l with
  | some i, some j => if i < j then some ((l.take (j + 1)).drop i) else none
  | _, _ => none

/-- Third parsing attempt (pdf_processor.py lines 339-354): slice between
the first `[` and last `]` and parse, else between the first and last
braces; a parse error here yields `None`. -/
def attempt3 (content : Chars) : Option JVal :=
  match firstLastSlice '[' ']' content with
  | some s => jsonParse s
  | none =>
    match firstLastSlice (Char.ofNat 123) (Char.ofNat 125) content with
    | some s => jsonParse s
    | none => none

/-- Parsing cascade of `extract_chapters_with_gemini` (pdf_processor.py
lines 318-354): direct parse; then the bracketed-array (or braced-object)
regex slice, whose parse error falls through to `attempt3`; when neither
slice pattern exists, no exception is raised and the result is `None`. -/
def cascade (content : Chars) : Option JVal :=
  match jsonParse content with
  | some v => some v
  | none =>
    match firstLastSlice '[' ']' content with
    | some s =>
      match jsonParse s with
      | some v => some v
      | none => attempt3 content
    | none =>
      match firstLastSlice (Char.ofNat 123) (Char.ofNat 125) content with
      | some s =>
        match jsonParse s with
        | some v => some v
        | none => attempt3 content
      | none => none

/-- Python truthiness of a parsed JSON value. -/
def jvTruthy : JVal → Bool
  | .jnull => false
  | .jbool b => b
  | .jnum n => n != 0
  | .jstr s => !s.isEmpty
  | .jarr xs => !xs.isEmpty
  | .jobj fs => !fs.isEmpty

/-- Lines 358-365: a parsed list contributes its elements, a single dict
contributes itself, anything else contributes nothing. -/
def listifyItems : JVal → List JVal
  | .jarr xs => xs
  | .jobj fs => [.jobj fs]
  | _ => []

/-- The Response Parser (pdf_processor.py lines 311-365): preprocess the
raw response, run the cascade, and on a truthy parse return the item
list; a falsy or failed parse is a failure (`None`). -/
def responseItems (raw : Chars) : Option (List JVal) :=
  match cascade (preprocess raw) with
  | none => none
  | some v => if jvTruthy v then some (listifyItems v) else none

lemma fenceOpenSubGo_of_not_hasSub :
    ∀ fuel l, hasSub "```json".data l = false → fenceOpenSubGo fuel l = l := by
  intro fuel
  induction fuel with
  | zero => intro l _; rfl
  | succ fuel ih =>
    intro l h
    cases l with
    | nil => rfl
    | cons c rest =>
      unfold fenceOpenSubGo
      rw [hasSub, Bool.or_eq_false_iff] at h
      rw [h.1]
      simp only [Bool.false_eq_true, if_false]
      rw [ih rest h.2]

lemma isPyWs_backtick : isPyWs (Char.ofNat 96) = false := by decide

lemma dropWhile_backtick (l : Chars) :
    List.dropWhile isPyWs (Char.ofNat 96 :: l) = Char.ofNat 96 :: l := by
  rw [List.dropWhile_cons, isPyWs_backtick]
  simp

lemma hasSub_fence_append (s : Chars) (hbt : Char.ofNat 96 ∉ s) :
    hasSub "```json".data (s ++ "```".data) = false := by
  induction s with
  | nil => decide
  | cons c t ih =>
    rw [List.cons_append, hasSub, Bool.or_eq_false_iff]
    refine ⟨?_, ih (fun hm => hbt (List.mem_cons_of_mem c hm))⟩
    have hc : Char.ofNat 96 ≠ c :=
      fun hc => hbt (hc ▸ List.mem_cons_self c t)
    show (Char.ofNat 96 == c && List.isPrefixOf "``json".data (t ++ "```".data)) = false
    rw [beq_false_of_ne hc, Bool.false_and]

lemma fenceCloseSub_append (s : Chars) :
    fenceCloseSub (s ++ "```".data) = s := by
  have hrev : (s ++ "```".data).reverse =
      Char.ofNat 96 :: Char.ofNat 96 :: Char.ofNat 96 :: s.reverse := by
    rw [List.reverse_append]
    rfl
  have hpre : ∀ x : Chars, List.isPrefixOf "```".data
      (Char.ofNat 96 :: Char.ofNat 96 :: Char.ofNat 96 :: x) = true := by
    intro x
    show (Char.ofNat 96 == Char.ofNat 96 &&
      (Char.ofNat 96 == Char.ofNat 96 &&
        (Char.ofNat 96 == Char.ofNat 96 && List.isPrefixOf [] x))) = true
    simp [List.isPrefixOf]
  unfold fenceCloseSub
  rw [hrev, dropWhile_backtick, hpre]
  simp

lemma pyStrip_fence (mid : Chars) :
    pyStrip (Char.ofNat 96 :: (mid ++ "```".data)) =
      Char.ofNat 96 :: (mid ++ "```".data) := by
  unfold pyStrip
  rw [dropWhile_backtick]
  have hrev : (Char.ofNat 96 :: (mid ++ "```".data)).reverse =
      Char.ofNat 96 :: Char.ofNat 96 :: Char.ofNat 96 ::
        (mid.reverse ++ [Char.ofNat 96]) := by
    rw [List.reverse_cons, List.reverse_append]
    rfl
  rw [hrev, dropWhile_backtick, ← hrev, List.reverse_reverse]

lemma dropWhile_ws_pos (c : Char) (l : Chars) (h : isPyWs c = true) :
    List.dropWhile isPyWs (c :: l) = List.dropWhile isPyWs l := by
  rw [List.dropWhile_cons, h]
  simp

lemma isPrefixOf_self_append (n x : Chars) : n.isPrefixOf (n ++ x) = true := by
  induction n with
  | nil => simp [List.isPrefixOf]
  | cons c t ih => simp [List.isPrefixOf, ih]

lemma fenceOpenSubGo_step (fuel : Nat) (rest : Chars) :
    fenceOpenSubGo (fuel + 1) ("```json".data ++ rest) =
      fenceOpenSubGo fuel (rest.dropWhile isPyWs) := by
  have hcons : "```json".data ++ rest = Char.ofNat 96 :: ("``json".data ++ rest) := rfl
  rw [hcons]
  conv_lhs => unfold fenceOpenSubGo
  rw [← hcons, if_pos (isPrefixOf_self_append "```json".data rest)]
  have hdrop : ("```json".data ++ rest).drop 7 = rest := by
    have h7 : ("```json".data).length = 7 := rfl
    rw [← h7, List.drop_left]
  rw [hdrop]

/-- Claim C4 (amended): when the model response wraps a valid, non-empty
JSON array text `s` of objects in code fences, and `s` contains no
backtick (so the fence-marker removals touch only the wrapper), the
Response Parser returns exactly the array's elements, in order.  The
counterexample shows the unamended claim fails both for the empty array
(truthiness makes it a parse failure) and for arrays whose serialization
contains a fence marker (the marker is stripped out of string values). -/
theorem claim_C4_amended (s : Chars) (es : List JVal)
    (hparse : jsonParse s = some (JVal.jarr es))
    (hne : es ≠ [])
    (hobj : ∀ e ∈ es, ∃ fs, e = JVal.jobj fs)
    (hbt : Char.ofNat 96 ∉ s)
    (hhead : s.headD ' ' = '[') :
    responseItems ("```json\n".data ++ (s ++ "```".data)) = some es := by
  obtain ⟨s', rfl⟩ : ∃ s', s = '[' :: s' := by
    cases s with
    | nil => exact absurd hhead (by decide)
    | cons a t =>
      refine ⟨t, ?_⟩
      have ha : a = '[' := by simpa using hhead
      rw [ha]
  have hpre : preprocess ("```json\n".data ++ (('[' :: s') ++ "```".data)) =
      '[' :: s' := by
    unfold preprocess
    have hshape : "```json\n".data ++ (('[' :: s') ++ "```".data) =
        Char.ofNat 96 :: (("``json\n".data ++ ('[' :: s')) ++ "```".data) := by
      rw [← List.append_assoc]
      rfl
    rw [hshape, pyStrip_fence, ← hshape]
    have hopen : fenceOpenSub ("```json\n".data ++ (('[' :: s') ++ "```".data)) =
        ('[' :: s') ++ "```".data := by
      unfold fenceOpenSub
      have hshape2 : "```json\n".data ++ (('[' :: s') ++ "```".data) =
          "```json".data ++ ('\n' :: (('[' :: s') ++ "```".data)) := rfl
      rw [hshape2, fenceOpenSubGo_step]
      have hdw : ('\n' :: (('[' :: s') ++ "```".data)).dropWhile isPyWs =
          ('[' :: s') ++ "```".data := by
        rw [dropWhile_ws_pos '\n' _ (by decide), List.cons_append,
          List.dropWhile_cons, show isPyWs '[' = false from by decide]
        simp
      rw [hdw]
      exact fenceOpenSubGo_of_not_hasSub _ _ (hasSub_fence_append ('[' :: s') hbt)
    rw [hopen, fenceCloseSub_append]
  unfold responseItems
  rw [hpre]
  unfold cascade
  rw [hparse]
  cases es with
  | nil => exact absurd rfl hne
  | cons e es' => rfl

/-- Witness for Claim C4's amended theorem: a fenced single-object array
response. -/
theorem claim_C4_witness :
    responseItems ("```json\n".data ++
        ("[\x7b\"title\": \"Intro\"\x7d]".data ++ "```".data)) =
      some [JVal.jobj [("title".data, JVal.jstr "Intro".data)]] :=
  claim_C4_amended "[\x7b\"title\": \"Intro\"\x7d]".data
    [JVal.jobj [("title".data, JVal.jstr "Intro".data)]]
    rfl (List.cons_ne_nil _ _)
    (fun e he => ⟨[("title".data, JVal.jstr "Intro".data)],
      by rw [List.mem_singleton] at he; exact he⟩)
    (by decide) rfl

/-- Projection used to discriminate Response Parser results: the string
value of the first member of the first object item. -/
def headTitleStr (r : Option (List JVal)) : Chars :=
  match r with
  | some (JVal.jobj ((_, JVal.jstr v) :: _) :: _) => v
  | _ => []

/-- Claim C4 counterexample.  First input: the empty JSON array `[]`
wrapped in fences — the claim says the parser returns its (zero) elements,
but the code treats the falsy parse as a failure.  Second input: an array
whose single object holds the string `"```json a"` — the fence-marker
removal also fires inside the string value, so the parser returns an
object with title `"a"` instead of the array's actual element. -/
theorem claim_C4_counterexample :
    (responseItems ("```json\n".data ++ ("[]".data ++ "```".data)) = none) ∧
      (jsonParse "[\x7b\"t\": \"```json a\"\x7d]".data =
        some (JVal.jarr [JVal.jobj [("t".data, JVal.jstr "```json a".data)]])) ∧
      (responseItems ("```json\n".data ++
          ("[\x7b\"t\": \"```json a\"\x7d]".data ++ "```".data)) ≠
        some [JVal.jobj [("t".data, JVal.jstr "```json a".data)]]) := by
  refine ⟨rfl, rfl, ?_⟩
  intro h
  have h2 := congrArg headTitleStr h
  have ha : headTitleStr (responseItems ("```json\n".data ++
      ("[\x7b\"t\": \"```json a\"\x7d]".data ++ "```".data))) = "a".data := rfl
  have hb : headTitleStr
      (some [JVal.jobj [("t".data, JVal.jstr "```json a".data)]]) =
      "```json a".data := rfl
  rw [ha, hb] at h2
  exact absurd h2 (by decide)

/-! Title Recovery (spec section 4.4).  The heading heuristics are the
regex searches at pdf_processor.py lines 177-181, 377-382 and 433-437.
Each pattern is embedded as a direct matcher with the same semantics:
`re.search` scans start positions left to right; a lazy quantifier stops
at the first position where the terminator alternative matches; the
optional `CHAPTER` prefix and the repetition of `\s+[A-Z][a-z]*` are
deterministic up to the documented backtracking because their character
classes are disjoint from what follows. -/

def isUpperAZ (c : Char) : Bool := 'A' ≤ c && c ≤ 'Z'

def isLowerAZ (c : Char) : Bool := 'a' ≤ c && c ≤ 'z'

/-- Terminator class `(?:\n|\r)` extended by `$` handled separately. -/
def termNl (c : Char) : Bool := c = '\n' || c = '\r'

/-- Terminator class `(?:\n|\r|\.)`. -/
def termNlDot (c : Char) : Bool := c = '\n' || c = '\r' || c = '.'

/-- Lazy repetition of a class with bounds: the number of characters
consumed before the first admissible stop (terminator character, or end
of input when the pattern's `$` alternative allows it). -/
def lazyRunGo (cls term : Char → Bool) (eosOk : Bool) (lo : Nat)
    (hi : Option Nat) : Nat → Chars → Option Nat
  | j, [] => if lo ≤ j && eosOk then some j else none
  | j, c :: rest =>
    if lo ≤ j && term c then some j
    else if (match hi with | some h => decide (h < j + 1) | none => false) then none
    else if cls c then lazyRunGo cls term eosOk lo hi (j + 1) rest
    else none

/-- Capture of `[A-Z][A-Z\s]{lo,hi}?` followed by a terminator, tried at
the head of `l`. -/
def capsGroupAt (lo : Nat) (hi : Option Nat) (term : Char → Bool)
    (eosOk : Bool) (l : Chars) : Option Chars :=
  match l with
  | [] => none
  | c :: rest =>
    if isUpperAZ c then
      match lazyRunGo (fun d => isUpperAZ d || isPyWs d) term eosOk lo hi 0 rest with
      | some j => some (c :: rest.take j)
      | none => none
    else none

/-- `re.search` position scan: try the head position, else advance. -/
def searchFirst (tryAt : Chars → Option Chars) : Chars → Option Chars
  | [] => tryAt []
  | c :: rest =>
    match tryAt (c :: rest) with
    | some g => some g
    | none => searchFirst tryAt rest

/-- The optional prefix `CHAPTER\s+\d+[:\.]?\s*`: deterministic because
whitespace, digits and the following `[A-Z]` classes are disjoint.
Returns the rest after the prefix when it matches. -/
def chapterPrefixEnd (l : Chars) : Option Chars :=
  if "CHAPTER".data.isPrefixOf l then
    let r1 := l.drop 7
    if (r1.takeWhile isPyWs).isEmpty then none
    else
      let r2 := r1.dropWhile isPyWs
      if (r2.takeWhile (fun c => c.isDigit)).isEmpty then none
      else
        let r3 := r2.dropWhile (fun c => c.isDigit)
        let r4 :=
          match r3 with
          | ':' :: t => t
          | '.' :: t => t
          | _ => r3
        some (r4.dropWhile isPyWs)
  else none

/-- Matcher at one position for a pattern of shape
`(?:CHAPTER\s+\d+[:\.]?\s*)?([A-Z][A-Z\s]{lo,hi}?)(?:term)`: try with the
prefix first (backtracking to the empty prefix when the group fails). -/
def chapterCapsAt (lo : Nat) (hi : Option Nat) (term : Char → Bool)
    (eosOk : Bool) (l : Chars) : Option Chars :=
  match chapterPrefixEnd l with
  | some r =>
    match capsGroupAt lo hi term eosOk r with
    | some g => some g
    | none => capsGroupAt lo hi term eosOk l
  | none => capsGroupAt lo hi term eosOk l

/-- Matcher at one position for `(\d+\.\s*[A-Z][A-Z\s]{lo,hi}?)(?:term)`
(the whole match is the capture group). -/
def numDotCapsAt (lo : Nat) (hi : Option Nat) (term : Char → Bool)
    (eosOk : Bool) (l : Chars) : Option Chars :=
  let ds := l.takeWhile (fun c => c.isDigit)
  if ds.isEmpty then none
  else
    match l.dropWhile (fun c => c.isDigit) with
    | '.' :: r2 =>
      let wsRun := r2.takeWhile isPyWs
      match capsGroupAt lo hi term eosOk (r2.dropWhile isPyWs) with
      | some g => some (ds ++ '.' :: (wsRun ++ g))
      | none => none
    | _ => none

/-- One repetition `\s+[A-Z][a-z]*` of the capitalized-words pattern:
returns the consumed characters and the rest. -/
def repParse (l : Chars) : Option (Chars × Chars) :=
  if (l.takeWhile isPyWs).isEmpty then none
  else
    match l.dropWhile isPyWs with
    | c :: r =>
      if isUpperAZ c then
        some (l.takeWhile isPyWs ++ c :: r.takeWhile isLowerAZ,
          r.dropWhile isLowerAZ)
      else none
    | [] => none

/-- Checkpoints after 0, 1, 2, … repetitions (greedy backtracking tries
them from the last one down). -/
def collectReps : Nat → Chars → Chars → List (Chars × Chars)
  | 0, g, r => [(g, r)]
  | fuel + 1, g, r =>
    (g, r) ::
      (match repParse r with
       | some (w, r2) => collectReps fuel (g ++ w) r2
       | none => [])

/-- Matcher at one position for
`([A-Z][a-z]+(?:\s+[A-Z][a-z]*){2,})(?:\n|\r|\.)` (pdf_processor.py line
381): greedy repetition count, backtracking down to 2 until the
terminator matches. -/
def capWordsAt (l : Chars) : Option Chars :=
  match l with
  | [] => none
  | c :: rest =>
    if isUpperAZ c then
      let low := rest.takeWhile isLowerAZ
      if low.isEmpty then none
      else
        let r0 := rest.dropWhile isLowerAZ
        let cps := collectReps (r0.length + 1) (c :: low) r0
        ((cps.drop 2).reverse.find? (fun p =>
          match p.2 with
          | t :: _ => termNlDot t
          | [] => false)).map Prod.fst
    else none

/-- Python `str.lower()` (ASCII). -/
def pyLower (l : Chars) : Chars := l.map Char.toLower

/-- Worker for Python `str.title()`: uppercase a letter after a
non-letter, lowercase a letter after a letter. -/
def pyTitleGo (prevAlpha : Bool) : Chars → Chars
  | [] => []
  | c :: rest =>
    (if c.isAlpha then (if prevAlpha then c.toLower else c.toUpper) else c) ::
      pyTitleGo c.isAlpha rest

def pyTitle (l : Chars) : Chars := pyTitleGo false l

/-- Python `str.isupper()` (ASCII): some cased character and no lowercase
one. -/
def pyIsUpper (l : Chars) : Bool :=
  l.any (fun c => isUpperAZ c) && l.all (fun c => !isLowerAZ c)

/-- Model of `re.sub(r'^\d+\.\s*', '', l)`: strip one leading
digits-dot-whitespace marker. -/
def stripNumDot (l : Chars) : Chars :=
  if (l.takeWhile (fun c => c.isDigit)).isEmpty then l
  else
    match l.dropWhile (fun c => c.isDigit) with
    | '.' :: r => r.dropWhile isPyWs
    | _ => l

/-- Case-insensitive prefix test (the needle is given lowercase). -/
def ciPrefix : Chars → Chars → Bool
  | [], _ => true
  | _ :: _, [] => false
  | a :: as, b :: bs => (a = b.toLower) && ciPrefix as bs

/-- Model of `re.sub(r'^(Chapter\s+\d+[:\.]?\s*)', '', l, flags=re.I)`
(pdf_processor.py line 226). -/
def stripChapterPrefix (l : Chars) : Chars :=
  if ciPrefix "chapter".data l then
    let r1 := l.drop 7
    if (r1.takeWhile isPyWs).isEmpty then l
    else
      let r2 := r1.dropWhile isPyWs
      if (r2.takeWhile (fun c => c.isDigit)).isEmpty then l
      else
        match r2.dropWhile (fun c => c.isDigit) with
        | ':' :: t => t.dropWhile isPyWs
        | '.' :: t => t.dropWhile isPyWs
        | r3 => r3.dropWhile isPyWs
  else l

/-- Title-recovery candidate handling of `clean_and_deduplicate_chapters`
(pdf_processor.py lines 183-193): strip, strip a leading number marker,
title-case, accept when strictly longer than 5 — note: no upper bound,
unlike the extraction-path recovery. -/
def cdTryPattern (g : Option Chars) : Option Chars :=
  match g with
  | none => none
  | some g0 =>
    let t := pyTitle (stripNumDot (pyStrip g0))
    if t.length > 5 then some t else none

/-- The Normalizer's heading heuristics (pdf_processor.py lines 177-193):
three patterns tried in order, each only installed when its cleaned
candidate is longer than 5 characters. -/
def cdRecoverTitle (content : Chars) : Option Chars :=
  match cdTryPattern (searchFirst (chapterCapsAt 1 none termNl true) content) with
  | some t => some t
  | none =>
    match cdTryPattern (searchFirst (numDotCapsAt 1 none termNl true) content) with
    | some t => some t
    | none => cdTryPattern (capsGroupAt 10 none termNl true content)

/-- Extraction-path candidate handling (pdf_processor.py lines 388-392 and
442-446): strip, strip a leading number marker, accept when the cleaned
length is between 5 and 60, title-casing all-caps candidates. -/
def exTryPattern (g : Option Chars) : Option Chars :=
  match g with
  | none => none
  | some g0 =>
    let cand := stripNumDot (pyStrip g0)
    if 5 ≤ cand.length ∧ cand.length ≤ 60 then
      some (if pyIsUpper cand then pyTitle cand else cand)
    else none

/-- Title recovery on a parsed item (pdf_processor.py lines 377-392): four
patterns tried in order. -/
def itemRecoverTitle (preview : Chars) : Option Chars :=
  match exTryPattern (searchFirst (chapterCapsAt 5 (some 50) termNlDot false) preview) with
  | some t => some t
  | none =>
    match exTryPattern (searchFirst (numDotCapsAt 5 (some 50) termNl false) preview) with
    | some t => some t
    | none =>
      match exTryPattern (capsGroupAt 5 (some 50) termNl false preview) with
      | some t => some t
      | none => exTryPattern (searchFirst capWordsAt preview)

/-- Title recovery for the per-segment fallback record (pdf_processor.py
lines 433-446): the first three patterns only. -/
def fallbackRecoverTitle (preview : Chars) : Option Chars :=
  match exTryPattern (searchFirst (chapterCapsAt 5 (some 50) termNlDot false) preview) with
  | some t => some t
  | none =>
    match exTryPattern (searchFirst (numDotCapsAt 5 (some 50) termNl false) preview) with
    | some t => some t
    | none => exTryPattern (capsGroupAt 5 (some 50) termNl false preview)

lemma pyTitleGo_length (l : Chars) : ∀ b, (pyTitleGo b l).length = l.length := by
  induction l with
  | nil => intro b; rfl
  | cons c rest ih =>
    intro b
    unfold pyTitleGo
    rw [List.length_cons, List.length_cons, ih]

lemma pyTitle_length (l : Chars) : (pyTitle l).length = l.length :=
  pyTitleGo_length l false

lemma exTryPattern_bounds (g : Option Chars) (t : Chars)
    (h : exTryPattern g = some t) : 5 ≤ t.length ∧ t.length ≤ 60 := by
  cases g with
  | none => exact absurd h (by simp [exTryPattern])
  | some g0 =>
    simp only [exTryPattern] at h
    by_cases hb : 5 ≤ (stripNumDot (pyStrip g0)).length ∧
        (stripNumDot (pyStrip g0)).length ≤ 60
    · rw [if_pos hb, Option.some.injEq] at h
      subst h
      by_cases hu : pyIsUpper (stripNumDot (pyStrip g0)) = true
      · rw [if_pos hu, pyTitle_length]
        exact hb
      · rw [if_neg hu]
        exact hb
    · rw [if_neg hb] at h
      exact absurd h (by simp)

/-- Claim C7 (amended): in both extraction-path title recoveries (the
parsed-item path, lines 377-392, and the per-segment fallback path, lines
433-446) a heading candidate is installed only when its cleaned length is
between 5 and 60 characters.  The Normalizer's own heading heuristic
(lines 177-193) does not obey this: it accepts any candidate strictly
longer than 5 characters with no upper bound (see the counterexample). -/
theorem claim_C7_amended (p t : Chars) :
    (itemRecoverTitle p = some t → 5 ≤ t.length ∧ t.length ≤ 60) ∧
      (fallbackRecoverTitle p = some t → 5 ≤ t.length ∧ t.length ≤ 60) := by
  constructor
  · intro h
    unfold itemRecoverTitle at h
    cases h1 : exTryPattern (searchFirst (chapterCapsAt 5 (some 50) termNlDot false) p) with
    | some t1 =>
      simp only [h1, Option.some.injEq] at h
      exact h ▸ exTryPattern_bounds _ _ h1
    | none =>
      simp only [h1] at h
      cases h2 : exTryPattern (searchFirst (numDotCapsAt 5 (some 50) termNl false) p) with
      | some t2 =>
        simp only [h2, Option.some.injEq] at h
        exact h ▸ exTryPattern_bounds _ _ h2
      | none =>
        simp only [h2] at h
        cases h3 : exTryPattern (capsGroupAt 5 (some 50) termNl false p) with
        | some t3 =>
          simp only [h3, Option.some.injEq] at h
          exact h ▸ exTryPattern_bounds _ _ h3
        | none =>
          simp only [h3] at h
          exact exTryPattern_bounds _ _ h
  · intro h
    unfold fallbackRecoverTitle at h
    cases h1 : exTryPattern (searchFirst (chapterCapsAt 5 (some 50) termNlDot false) p) with
    | some t1 =>
      simp only [h1, Option.some.injEq] at h
      exact h ▸ exTryPattern_bounds _ _ h1
    | none =>
      simp only [h1] at h
      cases h2 : exTryPattern (searchFirst (numDotCapsAt 5 (some 50) termNl false) p) with
      | some t2 =>
        simp only [h2, Option.some.injEq] at h
        exact h ▸ exTryPattern_bounds _ _ h2
      | none =>
        simp only [h2] at h
        exact exTryPattern_bounds _ _ h

/-- Witness for Claim C7's amended theorem: the preview
`"HELLO WORLD\n…"` yields the accepted 11-character candidate
`"Hello World"` on both paths. -/
theorem claim_C7_witness :
    itemRecoverTitle "HELLO WORLD\nrest of text".data = some "Hello World".data ∧
      5 ≤ "Hello World".data.length ∧ "Hello World".data.length ≤ 60 := by
  refine ⟨rfl, ?_⟩
  exact (claim_C7_amended "HELLO WORLD\nrest of text".data "Hello World".data).1 rfl

/-! The record dictionaries.  Extracted items are Python dicts with
string keys and JSON values; exceptions raised by string operations on
non-string values are modelled as `Except.error ()`. -/

abbrev Dict := List (Chars × JVal)

def dGet (d : Dict) (k : Chars) : Option JVal :=
  (d.find? (fun p => decide (p.1 = k))).map Prod.snd

/-- Python `d.get(k, v)`. -/
def dGetD (d : Dict) (k : Chars) (v : JVal) : JVal := (dGet d k).getD v

/-- Python `d[k] = v` (overwrite in place, append when new). -/
def dSet (d : Dict) (k : Chars) (v : JVal) : Dict := objInsert d k v

/-- Python `d.setdefault(k, v)`. -/
def dSetdefault (d : Dict) (k : Chars) (v : JVal) : Dict :=
  match dGet d k with
  | some _ => d
  | none => d ++ [(k, v)]

/-- String content of a JSON value; `none` models the `TypeError` /
`AttributeError` a Python string operation raises on other types. -/
def asStr : JVal → Option Chars
  | .jstr s => some s
  | _ => none

/-- Word characters of the regex class `\w` (ASCII). -/
def isWordChar (c : Char) : Bool := c.isAlphanum || c = '_'

/-- Worker for `re.sub(r'\s+', ' ', l)`: collapse each whitespace run to
one space (no trimming). -/
def collapseWsGo (prevWs : Bool) : Chars → Chars
  | [] => []
  | c :: rest =>
    if isPyWs c then
      (if prevWs then collapseWsGo true rest else ' ' :: collapseWsGo true rest)
    else c :: collapseWsGo false rest

def collapseWs (l : Chars) : Chars := collapseWsGo false l

/-- Normalized-title key of the Normalizer (pdf_processor.py lines
195-198): lowercase, strip, drop everything outside `\w` and `\s`,
collapse whitespace runs. -/
def normTitle (t : Chars) : Chars :=
  collapseWs ((pyStrip (pyLower t)).filter (fun c => isWordChar c || isPyWs c))

/-- Merge a same-key chapter into the stored one (pdf_processor.py lines
201-210): append its content after a blank line; comma-join the page
ranges when both are truthy and differ.  Missing `content` on the stored
record is a `KeyError`; non-string contents or page ranges that would be
concatenated are modelling boundaries treated as errors. -/
def mergeInto (ex : Dict) (ch : Dict) : Except Unit Dict :=
  match dGet ex "content".data with
  | none => .error ()
  | some ev =>
    match asStr ev, asStr (dGetD ch "content".data (JVal.jstr [])) with
    | some es, some cs =>
      let ex1 := dSet ex "content".data (JVal.jstr (es ++ "\n\n".data ++ cs))
      let er := dGetD ex1 "page_range".data (JVal.jstr [])
      let nr := dGetD ch "page_range".data (JVal.jstr [])
      if jvTruthy er && jvTruthy nr then
        match er, nr with
        | .jstr a, .jstr b =>
          if a ≠ b then
            .ok (dSet ex1 "page_range".data (JVal.jstr (a ++ ", ".data ++ b)))
          else .ok ex1
        | _, _ => .error ()
      else .ok ex1
    | _, _ => .error ()

/-- Replace the dict stored under `key` by its merge with `ch`. -/
def mergeStep (key : Chars) (ch : Dict) :
    List (Chars × Dict) → Except Unit (List (Chars × Dict))
  | [] => .ok []
  | (k, d) :: t =>
    if k = key then
      match mergeInto d ch with
      | .error e => .error e
      | .ok d' => .ok ((k, d') :: t)
    else
      match mergeStep key ch t with
      | .error e => .error e
      | .ok t' => .ok ((k, d) :: t')

/-- One chapter of the grouping loop of `clean_and_deduplicate_chapters`
(pdf_processor.py lines 168-212): optional title improvement for generic
`"PDF Content - Pages"` titles, then group by normalized key in first-seen
order, merging on repeats. -/
def groupStep (acc : List (Chars × Dict)) (ch : Dict) :
    Except Unit (List (Chars × Dict)) :=
  match asStr (dGetD ch "title".data (JVal.jstr [])) with
  | none => .error ()
  | some t0 =>
    let titleA := pyStrip t0
    let upd : Except Unit (Chars × Dict) :=
      if "PDF Content - Pages".data.isPrefixOf titleA then
        match asStr (dGetD ch "content".data (JVal.jstr [])) with
        | none => .error ()
        | some c0 =>
          match cdRecoverTitle (c0.take 500) with
          | some t => .ok (t, dSet ch "title".data (JVal.jstr t))
          | none => .ok (titleA, ch)
      else .ok (titleA, ch)
    match upd with
    | .error e => .error e
    | .ok (title, ch') =>
      let key := normTitle title
      if (acc.find? (fun p => decide (p.1 = key))).isSome then
        mergeStep key ch' acc
      else .ok (acc ++ [(key, ch')])

def groupFoldGo (acc : List (Chars × Dict)) :
    List Dict → Except Unit (List (Chars × Dict))
  | [] => .ok acc
  | ch :: t =>
    match groupStep acc ch with
    | .error e => .error e
    | .ok acc' => groupFoldGo acc' t

/-- Final title cleanup of one record (pdf_processor.py lines 218-229):
title-case an all-caps title, strip a leading `Chapter N` marker and a
leading number marker, trim. -/
def cleanupOne (d : Dict) : Except Unit Dict :=
  match asStr (dGetD d "title".data (JVal.jstr [])) with
  | none => .error ()
  | some t0 =>
    let t1 := if pyIsUpper t0 then pyTitle t0 else t0
    .ok (dSet d "title".data (JVal.jstr (pyStrip (stripNumDot (stripChapterPrefix t1)))))

def mapME : List Dict → Except Unit (List Dict)
  | [] => .ok []
  | d :: t =>
    match cleanupOne d with
    | .error e => .error e
    | .ok d' =>
      match mapME t with
      | .error e => .error e
      | .ok t' => .ok (d' :: t')

/-- `clean_and_deduplicate_chapters` (pdf_processor.py lines 159-231):
grouping pass then final title cleanup on the grouped records in
first-seen order. -/
def cleanAndDedup (chapters : List Dict) : Except Unit (List Dict) :=
  if chapters.isEmpty then .ok chapters
  else
    match groupFoldGo [] chapters with
    | .error e => .error e
    | .ok g => mapME (g.map Prod.snd)

lemma mergeStep_keys (key : Chars) (ch : Dict) :
    ∀ acc acc', mergeStep key ch acc = .ok acc' →
      acc'.map Prod.fst = acc.map Prod.fst := by
  intro acc
  induction acc with
  | nil =>
    intro acc' h
    unfold mergeStep at h
    rw [show (Except.ok [] : Except Unit (List (Chars × Dict))) = .ok acc' ↔
      [] = acc' from by simp] at h
    rw [← h]
  | cons p t ih =>
    intro acc' h
    obtain ⟨k, d⟩ := p
    unfold mergeStep at h
    by_cases hk : k = key
    · rw [if_pos hk] at h
      cases hm : mergeInto d ch with
      | error e => rw [hm] at h; exact absurd h (by simp)
      | ok d' =>
        rw [hm] at h
        simp only [Except.ok.injEq] at h
        rw [← h]
        rfl
    · rw [if_neg hk] at h
      cases hm : mergeStep key ch t with
      | error e => rw [hm] at h; exact absurd h (by simp)
      | ok t' =>
        rw [hm] at h
        simp only [Except.ok.injEq] at h
        rw [← h, List.map_cons, List.map_cons, ih t' hm]

lemma groupStep_keys (acc : List (Chars × Dict)) (ch : Dict)
    (acc' : List (Chars × Dict)) (h : groupStep acc ch = .ok acc')
    (hp : (acc.map Prod.fst).Pairwise (· ≠ ·)) :
    (acc'.map Prod.fst).Pairwise (· ≠ ·) := by
  unfold groupStep at h
  cases h0 : asStr (dGetD ch "title".data (JVal.jstr [])) with
  | none => rw [h0] at h; exact absurd h (by simp)
  | some t0 =>
    rw [h0] at h
    simp only [] at h
    set upd : Except Unit (Chars × Dict) :=
      (if "PDF Content - Pages".data.isPrefixOf (pyStrip t0) then
        match asStr (dGetD ch "content".data (JVal.jstr [])) with
        | none => .error ()
        | some c0 =>
          match cdRecoverTitle (c0.take 500) with
          | some t => .ok (t, dSet ch "title".data (JVal.jstr t))
          | none => .ok (pyStrip t0, ch)
      else .ok (pyStrip t0, ch)) with hupd
    cases hu : upd with
    | error e => rw [hu] at h; exact absurd h (by simp)
    | ok pr =>
      rw [hu] at h
      obtain ⟨title, ch'⟩ := pr
      simp only [] at h
      by_cases hf : (acc.find? (fun p => decide (p.1 = normTitle title))).isSome = true
      · rw [if_pos hf] at h
        rw [mergeStep_keys _ _ _ _ h]
        exact hp
      · rw [if_neg hf] at h
        simp only [Except.ok.injEq] at h
        rw [← h, List.map_append]
        rw [List.pairwise_append]
        refine ⟨hp, by simp, ?_⟩
        intro a ha b hb
        rw [List.map_cons, List.map_nil, List.mem_singleton] at hb
        subst hb
        have hnone : acc.find? (fun p => decide (p.1 = normTitle title)) = none := by
          cases hfe : acc.find? (fun p => decide (p.1 = normTitle title)) with
          | none => rfl
          | some x => rw [hfe] at hf; exact absurd rfl hf
        rw [List.find?_eq_none] at hnone
        rw [List.mem_map] at ha
        obtain ⟨p, hpmem, rfl⟩ := ha
        intro heq
        exact absurd (by simpa using heq) (by simpa using hnone p hpmem)

lemma groupFold_pairwise :
    ∀ (chs : List Dict) (acc : List (Chars × Dict)),
      (acc.map Prod.fst).Pairwise (· ≠ ·) →
      ∀ g, groupFoldGo acc chs = .ok g → (g.map Prod.fst).Pairwise (· ≠ ·) := by
  intro chs
  induction chs with
  | nil =>
    intro acc hp g h
    unfold groupFoldGo at h
    simp only [Except.ok.injEq] at h
    rw [← h]
    exact hp
  | cons ch t ih =>
    intro acc hp g h
    unfold groupFoldGo at h
    cases hs : groupStep acc ch with
    | error e => rw [hs] at h; exact absurd h (by simp)
    | ok acc' =>
      rw [hs] at h
      exact ih acc' (groupStep_keys acc ch acc' hs hp) g h

lemma mapME_length : ∀ l l', mapME l = .ok l' → l'.length = l.length := by
  intro l
  induction l with
  | nil =>
    intro l' h
    unfold mapME at h
    simp only [Except.ok.injEq] at h
    rw [← h]
  | cons d t ih =>
    intro l' h
    unfold mapME at h
    cases h1 : cleanupOne d with
    | error e => rw [h1] at h; exact absurd h (by simp)
    | ok d' =>
      rw [h1] at h
      cases h2 : mapME t with
      | error e => rw [h2] at h; exact absurd h (by simp)
      | ok t' =>
        rw [h2] at h
        simp only [Except.ok.injEq] at h
        rw [← h, List.length_cons, List.length_cons, ih t' h2]

/-- Claim C1 (amended): the grouping pass of the Normalizer produces
records under pairwise-distinct normalized-title keys, and the final
cleanup keeps them one-to-one; but, as the counterexample shows, the
cleanup can rewrite titles so that two output records' titles share a
normalized form — the claimed output invariant does not hold. -/
theorem claim_C1_amended (chs : List Dict) (g : List (Chars × Dict))
    (h : groupFoldGo [] chs = .ok g) :
    (g.map Prod.fst).Pairwise (· ≠ ·) ∧
      ∀ out, cleanAndDedup chs = .ok out → out.length = g.length := by
  refine ⟨groupFold_pairwise chs [] (by simp) g h, ?_⟩
  intro out hout
  unfold cleanAndDedup at hout
  by_cases he : chs.isEmpty = true
  · rw [if_pos he] at hout
    have hnil : chs = [] := List.isEmpty_iff.mp he
    subst hnil
    unfold groupFoldGo at h
    simp only [Except.ok.injEq] at h hout
    rw [← h, ← hout]
    rfl
  · rw [if_neg he, h] at hout
    have := mapME_length (g.map Prod.snd) out hout
    rw [this, List.length_map]

/-- Records of the Claim C1 counterexample: after cleanup both titles are
`"Introduction"`. -/
def recCE1 : Dict :=
  [("title".data, JVal.jstr "Chapter 1: Introduction".data),
   ("content".data, JVal.jstr "A".data),
   ("page_range".data, JVal.jstr "1".data)]

def recCE2 : Dict :=
  [("title".data, JVal.jstr "Introduction".data),
   ("content".data, JVal.jstr "B".data),
   ("page_range".data, JVal.jstr "2".data)]

/-- Witness for Claim C1's amended theorem at the counterexample input:
the grouped keys are distinct. -/
theorem claim_C1_witness :
    List.Pairwise (· ≠ ·)
      ((match groupFoldGo [] [recCE1, recCE2] with
        | .ok g => g
        | .error _ => ([] : List (Chars × Dict))).map Prod.fst) :=
  (claim_C1_amended [recCE1, recCE2] _ rfl).1

/-- Title string of a record (empty for a non-string title). -/
def titleStrOf (d : Dict) : Chars :=
  match asStr (dGetD d "title".data (JVal.jstr [])) with
  | some s => s
  | none => []

def titlesOf (r : Except Unit (List Dict)) : List Chars :=
  match r with
  | .ok out => out.map titleStrOf
  | .error _ => []

def normTitlesOf (r : Except Unit (List Dict)) : List Chars :=
  match r with
  | .ok out => out.map (fun d => normTitle (titleStrOf d))
  | .error _ => []

/-- Claim C1 counterexample: on the records titled
`"Chapter 1: Introduction"` and `"Introduction"`, the Normalizer emits two
records whose titles share the normalized form `"introduction"` — the
final cleanup strips the `Chapter 1:` marker after grouping. -/
theorem claim_C1_counterexample :
    normTitlesOf (cleanAndDedup [recCE1, recCE2]) =
        ["introduction".data, "introduction".data] ∧
      ¬ (normTitlesOf (cleanAndDedup [recCE1, recCE2])).Pairwise (· ≠ ·) := by
  refine ⟨rfl, ?_⟩
  rw [show normTitlesOf (cleanAndDedup [recCE1, recCE2]) =
    ["introduction".data, "introduction".data] from rfl]
  intro hp
  rcases List.pairwise_cons.mp hp with ⟨hne, -⟩
  exact hne _ (List.mem_singleton_self _) rfl

/-- Record of the Claim C7 counterexample: a generic title and a content
whose leading line is a 70-character all-caps run. -/
def recC7 : Dict :=
  [("title".data, JVal.jstr "PDF Content - Pages 1-2".data),
   ("content".data, JVal.jstr (List.replicate 70 'A' ++ "\nEnd of section.".data)),
   ("page_range".data, JVal.jstr "1-2".data)]

/-- Claim C7 counterexample: the Normalizer's heading heuristic accepts a
70-character candidate (its guard is only `len > 5`, with no upper
bound), so a title far outside the claimed 5-to-60 range is installed. -/
theorem claim_C7_counterexample :
    titlesOf (cleanAndDedup [recC7]) = ['A' :: List.replicate 69 'a'] ∧
      60 < ('A' :: List.replicate 69 'a').length := by
  exact ⟨rfl, by simp⟩

/-- Claim C8 (amended to the two-record list the scenario describes): the
titles `"THE HISTORY"` and `"the   history!"` normalize to the same key
and the two records merge into a single output record whose content is
the first content, a blank line, then the second content, for every pair
of contents. -/
theorem claim_C8_amended (c1 c2 : Chars) :
    normTitle "THE HISTORY".data = normTitle "the   history!".data ∧
      cleanAndDedup
          [[("title".data, JVal.jstr "THE HISTORY".data),
            ("content".data, JVal.jstr c1),
            ("page_range".data, JVal.jstr "1".data)],
           [("title".data, JVal.jstr "the   history!".data),
            ("content".data, JVal.jstr c2),
            ("page_range".data, JVal.jstr "1".data)]] =
        .ok [[("title".data, JVal.jstr "The History".data),
              ("content".data, JVal.jstr (c1 ++ "\n\n".data ++ c2)),
              ("page_range".data, JVal.jstr "1".data)]] := by
  exact ⟨rfl, rfl⟩

def contentsOf (r : Except Unit (List Dict)) : List Chars :=
  match r with
  | .ok out => out.map (fun d =>
      match asStr (dGetD d "content".data (JVal.jstr [])) with
      | some s => s
      | none => [])
  | .error _ => []

/-- Claim C8 counterexample: a list that contains the two named records
but also a third record with the same normalized key; the single merged
record's content is all three contents joined, not just the first two, so
the claim as stated over every containing list fails. -/
theorem claim_C8_counterexample :
    contentsOf (cleanAndDedup
        [[("title".data, JVal.jstr "THE HISTORY".data),
          ("content".data, JVal.jstr "A".data),
          ("page_range".data, JVal.jstr "1".data)],
         [("title".data, JVal.jstr "the   history!".data),
          ("content".data, JVal.jstr "B".data),
          ("page_range".data, JVal.jstr "1".data)],
         [("title".data, JVal.jstr "THE HISTORY".data),
          ("content".data, JVal.jstr "C".data),
          ("page_range".data, JVal.jstr "1".data)]]) =
        ["A\n\nB\n\nC".data] ∧
      ("A\n\nB\n\nC".data : Chars) ≠ "A\n\nB".data := by
  exact ⟨rfl, by decide⟩

/-! The extraction pipeline (pdf_processor.py lines 233-497, scraper.py
lines 83-215).  The external model call is an oracle argument: each
chunk's raw response text, or `none` for a transport failure.  The prompt
template is a parameter (the spec, section 4.2, treats prompt wording as
external to the core); only its length feeds the token estimate.  Cost is
exact rational arithmetic where Python uses floats. -/

structure TokenUsage where
  inputTokens : Nat
  outputTokens : Nat
  totalTokens : Nat
  cost : ℚ
deriving DecidableEq

def zeroUsage : TokenUsage := ⟨0, 0, 0, 0⟩

/-- `calculate_cost` (pdf_processor.py lines 43-46) with the `PRICING`
table input 0.00035, output 0.00053 per thousand tokens. -/
def calculateCost (it ot : Nat) : ℚ :=
  (it : ℚ) / 1000 * (35 / 100000) + (ot : ℚ) / 1000 * (53 / 100000)

/-- One per-chunk accumulation step (pdf_processor.py lines 306-309): the
total is incremented by `input + output`. -/
def addUsage (u : TokenUsage) (it ot : Nat) : TokenUsage :=
  ⟨u.inputTokens + it, u.outputTokens + ot, u.totalTokens + (it + ot),
    u.cost + calculateCost it ot⟩

def isJDict : JVal → Bool
  | .jobj _ => true
  | _ => false

/-- The listification used by the failure test at line 416:
`parsed_data if isinstance(parsed_data, list) else [parsed_data]`. -/
def listify416 : JVal → List JVal
  | .jarr xs => xs
  | v => [v]

def anyJDict (l : List JVal) : Bool := l.any isJDict

/-- The fixed keyword vocabulary of the last-resort title heuristic
(pdf_processor.py line 398). -/
def kwList : List Chars :=
  ["interview".data, "coding".data, "technical".data, "resume".data,
   "career".data, "job".data, "algorithm".data, "programming".data,
   "software".data, "engineer".data, "developer".data, "hiring".data,
   "recruiter".data]

/-- One keyword match at the head position: keyword then `\w*` maximal. -/
def kwAt (l : Chars) : Option (Chars × Chars) :=
  match kwList.find? (fun k => k.isPrefixOf l) with
  | some k =>
    some (k ++ (l.drop k.length).takeWhile isWordChar,
      (l.drop k.length).dropWhile isWordChar)
  | none => none

/-- `re.findall` of the keyword pattern with `\b` boundaries over the
lowered preview. -/
def findKwGo : Nat → Bool → Chars → List Chars
  | 0, _, _ => []
  | _ + 1, _, [] => []
  | fuel + 1, prevW, c :: rest =>
    if prevW then findKwGo fuel (isWordChar c) rest
    else
      match kwAt (c :: rest) with
      | some (w, r) => w :: findKwGo fuel true r
      | none => findKwGo fuel (isWordChar c) rest

def findKeywords (l : Chars) : List Chars := findKwGo (l.length + 1) false l

/-- `max(set(keywords), key=keywords.count)`.  CPython iterates the set in
hash order (randomized for strings), so ties are implementation-defined;
the model breaks ties by first occurrence. -/
def maxByCount (l : List Chars) : Chars :=
  l.dedup.foldl (fun best k => if l.count k > l.count best then k else best)
    (l.dedup.headD [])

/-- The per-segment fallback record (pdf_processor.py lines 425-457):
title from the fallback recovery over the first 300 characters, content
truncated to 1000 characters with an ellipsis marker exactly when
longer. -/
def fallbackItem (pdfFilename : Chars) (c : PdfChunk) : Dict :=
  let fbTitle :=
    if c.content.isEmpty then
      "Content Section (Pages ".data ++ c.pageRange ++ ")".data
    else
      match fallbackRecoverTitle (c.content.take 300) with
      | some t => t
      | none => "Content Section (Pages ".data ++ c.pageRange ++ ")".data
  [("title".data, JVal.jstr fbTitle),
   ("content".data, JVal.jstr
     (if c.content.length > 1000 then c.content.take 1000 ++ "...".data
      else c.content)),
   ("content_type".data, JVal.jstr "pdf_chapter".data),
   ("source_url".data, JVal.jstr pdfFilename),
   ("author".data, JVal.jstr "Unknown".data),
   ("user_id".data, JVal.jstr []),
   ("page_range".data, JVal.jstr c.pageRange),
   ("chapter".data, JVal.jstr ("Chunk ".data ++ natToChars c.chunkIndex))]

/-- Per-item normalization of a parsed dict (pdf_processor.py lines
368-411): replace a missing or generic title through title recovery, then
fill the defaulted fields.  String operations on non-string title or
content model the `TypeError` the Python code would raise there. -/
def itemFix (pdfFilename : Chars) (c : PdfChunk) (fs : Dict) : Except Unit Dict :=
  let titleV := dGetD fs "title".data (JVal.jstr [])
  let recover : Except Unit Bool :=
    if jvTruthy titleV then
      match titleV with
      | .jstr s => .ok (hasSub "PDF Content".data s)
      | _ => .error ()
    else .ok true
  match recover with
  | .error e => .error e
  | .ok needs =>
    let fixed : Except Unit Dict :=
      if needs then
        match dGetD fs "content".data (JVal.jstr []) with
        | .jstr cs =>
          let preview := cs.take 300
          match itemRecoverTitle preview with
          | some t => .ok (dSet fs "title".data (JVal.jstr t))
          | none =>
            match findKeywords (pyLower preview) with
            | [] => .ok (dSet fs "title".data (JVal.jstr
                ("Content Section (Pages ".data ++ c.pageRange ++ ")".data)))
            | kws => .ok (dSet fs "title".data (JVal.jstr
                (pyTitle (maxByCount kws) ++ " Content".data)))
        | _ => .error ()
      else .ok fs
    match fixed with
    | .error e => .error e
    | .ok d0 =>
      .ok (dSetdefault (dSetdefault (dSetdefault (dSetdefault (dSetdefault
        (dSetdefault d0
          "content_type".data (JVal.jstr "pdf_chapter".data))
          "source_url".data (JVal.jstr pdfFilename))
          "author".data (JVal.jstr "Unknown".data))
          "user_id".data (JVal.jstr []))
          "page_range".data (JVal.jstr c.pageRange))
          "chapter".data (JVal.jstr ("Chunk ".data ++ natToChars c.chunkIndex)))

/-- The item loop (pdf_processor.py lines 368-413): non-dict elements are
skipped; a raised error keeps the items appended so far and sets the
crash flag (the exception is caught by the per-chunk handler). -/
def processItems (fn : Chars) (c : PdfChunk) : List JVal → List Dict × Bool
  | [] => ([], false)
  | item :: t =>
    match item with
    | .jobj fs =>
      match itemFix fn c fs with
      | .error _ => ([], true)
      | .ok d =>
        let r := processItems fn c t
        (d :: r.1, r.2)
    | _ => processItems fn c t

/-- One chunk of the extraction loop (pdf_processor.py lines 244-458):
returns the records contributed by the chunk and the token increments.
`none` as response models a raised call (no accounting, fallback record);
otherwise tokens are counted before parsing, and a parse that yields no
mapping-typed element (or an item-processing error) appends exactly one
fallback record. -/
def perChunk (prompt : PdfChunk → Chars) (fn : Chars) (c : PdfChunk) :
    Option Chars → List Dict × Nat × Nat
  | none => ([fallbackItem fn c], 0, 0)
  | some resp =>
    let it := (prompt c).length / 4
    let ot := resp.length / 4
    match cascade (preprocess resp) with
    | none => ([fallbackItem fn c], it, ot)
    | some v =>
      let items := if jvTruthy v then listifyItems v else []
      let pr := processItems fn c items
      if pr.2 then (pr.1 ++ [fallbackItem fn c], it, ot)
      else if jvTruthy v && anyJDict (listify416 v) then (pr.1, it, ot)
      else (pr.1 ++ [fallbackItem fn c], it, ot)

/-- The chunk loop fold of `extract_chapters_with_gemini`: accumulated
raw records and token usage. -/
def chunksFoldGo (prompt : PdfChunk → Chars) (fn : Chars) :
    List Dict × TokenUsage → List (PdfChunk × Option Chars) →
      List Dict × TokenUsage
  | acc, [] => acc
  | acc, (c, r) :: t =>
    chunksFoldGo prompt fn
      (acc.1 ++ (perChunk prompt fn c r).1,
        addUsage acc.2 (perChunk prompt fn c r).2.1 (perChunk prompt fn c r).2.2) t

/-- `extract_chapters_with_gemini` (pdf_processor.py lines 233-465): a
missing credential raises before any per-chunk work; otherwise the chunk
loop runs and the result is deduplicated. -/
def extractChapters (apiKey : Option Chars) (prompt : PdfChunk → Chars)
    (fn : Chars) (chunkResps : List (PdfChunk × Option Chars)) :
    Except Unit (List Dict × TokenUsage) :=
  match apiKey with
  | none => .error ()
  | some _ =>
    let r := chunksFoldGo prompt fn ([], zeroUsage) chunkResps
    match cleanAndDedup r.1 with
    | .error e => .error e
    | .ok cleaned => .ok (cleaned, r.2)

/-- `process_pdf_file` (pdf_processor.py lines 467-497), with the PDF text
extraction (an external library) supplied as `fullText`/`pageInfoLen` and
the model call as `oracle`.  The catch-all handler converts any raised
error into the empty result. -/
def processPdfFile (apiKey : Option Chars) (prompt : PdfChunk → Chars)
    (pdfFilename : Chars) (fullText : Chars) (pageInfoLen : Nat)
    (oracle : Nat → Option Chars) : List Dict × TokenUsage :=
  if (pyStrip fullText).isEmpty then ([], zeroUsage)
  else if (chunkPdfContent fullText pageInfoLen 15000 1000).isEmpty then
    ([], zeroUsage)
  else
    match extractChapters apiKey prompt pdfFilename
      ((chunkPdfContent fullText pageInfoLen 15000 1000).enum.map
        (fun p => (p.2, oracle p.1))) with
    | .ok r => r
    | .error _ => ([], zeroUsage)

/-- `extract_blog_list_with_gemini` (scraper.py lines 83-153): the
credential check sits inside the catch-all, so a missing key silently
becomes the empty result with zero usage. -/
def extractBlogList (apiKey : Option Chars) (prompt : Chars → Chars)
    (markdown : Chars) (oresp : Option Chars) : JVal × TokenUsage :=
  let md :=
    if markdown.length > 25000 then
      markdown.take 25000 ++ "\n\n[Truncated...]".data
    else markdown
  match apiKey with
  | none => (.jarr [], zeroUsage)
  | some _ =>
    match oresp with
    | none => (.jarr [], zeroUsage)
    | some resp =>
      let it := (prompt md).length / 4
      let ot := resp.length / 4
      let usage : TokenUsage := ⟨it, ot, it + ot, calculateCost it ot⟩
      let content := fenceCloseSub (fenceOpenSub (pyStrip resp))
      match firstLastSlice '[' ']' content with
      | some s =>
        match jsonParse s with
        | some v => (v, usage)
        | none => (.jarr [], zeroUsage)
      | none =>
        match jsonParse content with
        | some v => (v, usage)
        | none => (.jarr [], zeroUsage)

/-- Per-chunk loop of `extract_blog_content_with_gemini` (scraper.py lines
164-198): a failed call is skipped without accounting; a successful one
adds its token increments and its stripped response text. -/
def blogContentGo (prompt : Chars → Chars) (oracle : Nat → Option Chars)
    (acc : List Chars × TokenUsage) : List (Nat × Chars) → List Chars × TokenUsage
  | [] => acc
  | (i, ch) :: t =>
    match oracle i with
    | none => blogContentGo prompt oracle acc t
    | some resp =>
      blogContentGo prompt oracle
        (acc.1 ++ [pyStrip resp],
          addUsage acc.2 ((prompt ch).length / 4) (resp.length / 4)) t

/-- Python `"\n\n".join(parts)`. -/
def joinParts : List Chars → Chars
  | [] => []
  | [p] => p
  | p :: rest => p ++ "\n\n".data ++ joinParts rest

/-- `extract_blog_content_with_gemini` (scraper.py lines 155-201): the
missing-credential error propagates (no catch in this function). -/
def extractBlogContent (apiKey : Option Chars) (prompt : Chars → Chars)
    (chunks : List Chars) (oracle : Nat → Option Chars) :
    Except Unit (Chars × TokenUsage) :=
  match apiKey with
  | none => .error ()
  | some _ =>
    let r := blogContentGo prompt oracle ([], zeroUsage) chunks.enum
    .ok (joinParts (r.1.filter (fun p => !(pyStrip p).isEmpty)), r.2)

/-- Condition of Claim C5: the chunk's model response cannot be parsed
into any mapping-typed element (no response, a failed cascade, or a parse
with no dict among the items the failure test at line 416 inspects). -/
def respNoMapping : Option Chars → Bool
  | none => true
  | some t =>
    match cascade (preprocess t) with
    | none => true
    | some v => !(anyJDict (listify416 v))

lemma processItems_no_dict (fn : Chars) (c : PdfChunk) :
    ∀ items, anyJDict items = false → processItems fn c items = ([], false) := by
  intro items
  induction items with
  | nil => intro _; rfl
  | cons item t ih =>
    intro h
    rw [anyJDict, List.any_cons, Bool.or_eq_false_iff] at h
    cases item with
    | jobj fs => exact absurd h.1 (by simp [isJDict])
    | jnull => exact ih h.2
    | jbool b => exact ih h.2
    | jnum n => exact ih h.2
    | jstr s => exact ih h.2
    | jarr xs => exact ih h.2

lemma listifyItems_no_dict (v : JVal) (h : anyJDict (listify416 v) = false) :
    anyJDict (listifyItems v) = false := by
  cases v with
  | jarr xs => exact h
  | jobj fs => exact absurd h (by simp [listify416, anyJDict, isJDict])
  | jnull => rfl
  | jbool b => rfl
  | jnum n => rfl
  | jstr s => rfl

lemma perChunk_items (prompt : PdfChunk → Chars) (fn : Chars) (c : PdfChunk)
    (r : Option Chars) (h : respNoMapping r = true) :
    (perChunk prompt fn c r).1 = [fallbackItem fn c] := by
  cases r with
  | none => rfl
  | some t =>
    simp only [respNoMapping] at h
    simp only [perChunk]
    cases hv : cascade (preprocess t) with
    | none => rfl
    | some v =>
      rw [hv] at h
      simp only [Bool.not_eq_true'] at h
      have hitems : anyJDict (if jvTruthy v then listifyItems v else []) = false := by
        by_cases ht : jvTruthy v = true
        · rw [if_pos ht]
          exact listifyItems_no_dict v h
        · rw [if_neg ht]
          rfl
      simp only [processItems_no_dict fn c _ hitems, h, Bool.and_false,
        Bool.false_eq_true, if_false, List.nil_append]

lemma chunksFoldGo_acc_items (prompt : PdfChunk → Chars) (fn : Chars) :
    ∀ l ds u, (chunksFoldGo prompt fn (ds, u) l).1 =
      ds ++ (chunksFoldGo prompt fn ([], zeroUsage) l).1 := by
  intro l
  induction l with
  | nil =>
    intro ds u
    simp [chunksFoldGo]
  | cons p t ih =>
    intro ds u
    obtain ⟨c, r⟩ := p
    show (chunksFoldGo prompt fn (ds ++ (perChunk prompt fn c r).1,
        addUsage u (perChunk prompt fn c r).2.1 (perChunk prompt fn c r).2.2)
          t).1 =
      ds ++ (chunksFoldGo prompt fn ([] ++ (perChunk prompt fn c r).1,
        addUsage zeroUsage (perChunk prompt fn c r).2.1
          (perChunk prompt fn c r).2.2) t).1
    rw [ih (ds ++ (perChunk prompt fn c r).1)
        (addUsage u (perChunk prompt fn c r).2.1 (perChunk prompt fn c r).2.2),
      ih ([] ++ (perChunk prompt fn c r).1)
        (addUsage zeroUsage (perChunk prompt fn c r).2.1
          (perChunk prompt fn c r).2.2)]
    simp [List.append_assoc]

lemma chunksFoldGo_append (prompt : PdfChunk → Chars) (fn : Chars) :
    ∀ l1 l2 acc, chunksFoldGo prompt fn acc (l1 ++ l2) =
      chunksFoldGo prompt fn (chunksFoldGo prompt fn acc l1) l2 := by
  intro l1
  induction l1 with
  | nil => intro l2 acc; rfl
  | cons p t ih =>
    intro l2 acc
    obtain ⟨c, r⟩ := p
    rw [List.cons_append]
    simp only [chunksFoldGo]
    rw [ih]

/-- Claim C5: a segment whose response yields no mapping-typed element
contributes exactly one fallback record — its content being the raw
segment content truncated to 1000 characters with a trailing `"..."`
exactly when longer than 1000 — and the surrounding segments before and
after it are processed normally (the job is not aborted). -/
theorem claim_C5 (prompt : PdfChunk → Chars) (fn : Chars)
    (pre post : List (PdfChunk × Option Chars)) (c : PdfChunk)
    (r : Option Chars) (h : respNoMapping r = true) :
    (chunksFoldGo prompt fn ([], zeroUsage) (pre ++ (c, r) :: post)).1 =
        (chunksFoldGo prompt fn ([], zeroUsage) pre).1 ++
          [fallbackItem fn c] ++
          (chunksFoldGo prompt fn ([], zeroUsage) post).1 ∧
      dGetD (fallbackItem fn c) "content".data (JVal.jstr []) =
        JVal.jstr (if c.content.length > 1000 then
          c.content.take 1000 ++ "...".data else c.content) := by
  constructor
  · rw [chunksFoldGo_append prompt fn pre ((c, r) :: post)]
    set A := chunksFoldGo prompt fn ([], zeroUsage) pre with hA
    have hstep : chunksFoldGo prompt fn A ((c, r) :: post) =
        chunksFoldGo prompt fn
          (A.1 ++ (perChunk prompt fn c r).1,
            addUsage A.2 (perChunk prompt fn c r).2.1 (perChunk prompt fn c r).2.2)
          post := rfl
    rw [hstep, chunksFoldGo_acc_items, perChunk_items prompt fn c r h,
      List.append_assoc]
  · rfl

/-- Witness for Claim C5 with a concrete unparseable response. -/
theorem claim_C5_witness :
    (chunksFoldGo (fun _ => []) "f.pdf".data ([], zeroUsage)
        ([] ++ (⟨"hi".data, "1".data, 1⟩, some "hello".data) :: [])).1 =
        (chunksFoldGo (fun _ => []) "f.pdf".data ([], zeroUsage) []).1 ++
          [fallbackItem "f.pdf".data ⟨"hi".data, "1".data, 1⟩] ++
          (chunksFoldGo (fun _ => []) "f.pdf".data ([], zeroUsage) []).1 ∧
      dGetD (fallbackItem "f.pdf".data ⟨"hi".data, "1".data, 1⟩)
          "content".data (JVal.jstr []) =
        JVal.jstr (if ("hi".data : Chars).length > 1000 then
          "hi".data.take 1000 ++ "...".data else "hi".data) :=
  claim_C5 (fun _ => []) "f.pdf".data [] [] ⟨"hi".data, "1".data, 1⟩
    (some "hello".data) rfl

/-- Claim C9 (amended): with the credential missing, the extraction entry
points do no per-segment work — `extract_chapters_with_gemini` and
`extract_blog_content_with_gemini` raise immediately (result independent
of the segments), and the blog-list extractor returns the empty result
with zero usage; the job wrapper `process_pdf_file` catches the raised
error and returns the empty result with zero usage instead of failing
fatally. -/
theorem claim_C9_amended :
    (∀ (prompt : PdfChunk → Chars) (fn : Chars)
        (chunkResps : List (PdfChunk × Option Chars)),
      extractChapters none prompt fn chunkResps = .error ()) ∧
      (∀ (prompt : PdfChunk → Chars) (fn fullText : Chars) (pageInfoLen : Nat)
          (oracle : Nat → Option Chars),
        processPdfFile none prompt fn fullText pageInfoLen oracle =
          ([], zeroUsage)) ∧
      (∀ (prompt : Chars → Chars) (md : Chars) (oresp : Option Chars),
        extractBlogList none prompt md oresp = (.jarr [], zeroUsage)) ∧
      (∀ (prompt : Chars → Chars) (chunks : List Chars)
          (oracle : Nat → Option Chars),
        extractBlogContent none prompt chunks oracle = .error ()) := by
  refine ⟨fun _ _ _ => rfl, ?_, fun _ _ _ => rfl, fun _ _ _ => rfl⟩
  intro prompt fn fullText pageInfoLen oracle
  unfold processPdfFile
  split_ifs <;> rfl

/-- Claim C9 counterexample: on a concrete job with the credential
missing, the inner extraction raises, but the PDF job wrapper returns the
ordinary empty result (indistinguishable from an empty document) and the
blog-list extractor silently returns the empty result — the job does not
fail fatally and nothing is reported to the caller. -/
theorem claim_C9_counterexample :
    extractChapters none (fun _ => []) "f.pdf".data
        [(⟨"text".data, "1".data, 1⟩, some "resp".data)] = .error () ∧
      processPdfFile none (fun _ => []) "f.pdf".data
          "Some document text".data 1 (fun _ => none) = ([], zeroUsage) ∧
      extractBlogList none (fun _ => []) "md".data (some "resp".data) =
        (.jarr [], zeroUsage) :=
  ⟨rfl, rfl, rfl⟩

/-- Token-usage invariant of Claim C10. -/
def usageInv (u : TokenUsage) : Prop :=
  u.totalTokens = u.inputTokens + u.outputTokens

lemma addUsage_inv (u : TokenUsage) (it ot : Nat) (h : usageInv u) :
    usageInv (addUsage u it ot) := by
  show u.totalTokens + (it + ot) = u.inputTokens + it + (u.outputTokens + ot)
  unfold usageInv at h
  omega

lemma chunksFoldGo_inv (prompt : PdfChunk → Chars) (fn : Chars) :
    ∀ l acc, usageInv acc.2 → usageInv (chunksFoldGo prompt fn acc l).2 := by
  intro l
  induction l with
  | nil => intro acc h; exact h
  | cons p t ih =>
    intro acc h
    obtain ⟨c, r⟩ := p
    unfold chunksFoldGo
    exact ih _ (addUsage_inv _ _ _ h)

lemma blogContentGo_inv (prompt : Chars → Chars) (oracle : Nat → Option Chars) :
    ∀ l acc, usageInv acc.2 → usageInv (blogContentGo prompt oracle acc l).2 := by
  intro l
  induction l with
  | nil => intro acc h; exact h
  | cons p t ih =>
    intro acc h
    obtain ⟨i, ch⟩ := p
    unfold blogContentGo
    cases oracle i with
    | none => exact ih _ h
    | some resp => exact ih _ (addUsage_inv _ _ _ h)

/-- Claim C10: every token-usage value returned by an extraction entry
point satisfies `total = input + output`, and the accumulator satisfies
it after every per-segment increment (the folds starting from the zeroed
accumulator, over every list of segments). -/
theorem claim_C10 :
    (∀ (key : Option Chars) (prompt : PdfChunk → Chars) (fn : Chars)
        (l : List (PdfChunk × Option Chars)) (r : List Dict) (u : TokenUsage),
      extractChapters key prompt fn l = .ok (r, u) → usageInv u) ∧
      (∀ (key : Option Chars) (prompt : Chars → Chars) (md : Chars)
          (oresp : Option Chars),
        usageInv (extractBlogList key prompt md oresp).2) ∧
      (∀ (key : Option Chars) (prompt : Chars → Chars) (chunks : List Chars)
          (oracle : Nat → Option Chars) (s : Chars) (u : TokenUsage),
        extractBlogContent key prompt chunks oracle = .ok (s, u) → usageInv u) ∧
      (∀ (prompt : PdfChunk → Chars) (fn : Chars) (acc : List Dict × TokenUsage)
          (l : List (PdfChunk × Option Chars)),
        usageInv acc.2 → usageInv (chunksFoldGo prompt fn acc l).2) ∧
      (∀ (prompt : Chars → Chars) (oracle : Nat → Option Chars)
          (acc : List Chars × TokenUsage) (l : List (Nat × Chars)),
        usageInv acc.2 → usageInv (blogContentGo prompt oracle acc l).2) := by
  refine ⟨?_, ?_, ?_, fun prompt fn acc l h => chunksFoldGo_inv prompt fn l acc h,
    fun prompt oracle acc l h => blogContentGo_inv prompt oracle l acc h⟩
  · intro key prompt fn l r u h
    cases key with
    | none => exact absurd h (by simp [extractChapters])
    | some k =>
      rw [show extractChapters (some k) prompt fn l =
        (match cleanAndDedup (chunksFoldGo prompt fn ([], zeroUsage) l).1 with
         | .error e => .error e
         | .ok cleaned =>
           .ok (cleaned, (chunksFoldGo prompt fn ([], zeroUsage) l).2)) from rfl] at h
      cases hc : cleanAndDedup (chunksFoldGo prompt fn ([], zeroUsage) l).1 with
      | error e => rw [hc] at h; exact absurd h (by simp)
      | ok cleaned =>
        rw [hc] at h
        simp only [Except.ok.injEq, Prod.mk.injEq] at h
        rw [← h.2]
        exact chunksFoldGo_inv prompt fn l ([], zeroUsage) rfl
  · intro key prompt md oresp
    cases key with
    | none => exact rfl
    | some k =>
      cases oresp with
      | none => exact rfl
      | some resp =>
        unfold extractBlogList
        simp only []
        split
        · split
          · exact rfl
          · exact rfl
        · split
          · exact rfl
          · exact rfl
  · intro key prompt chunks oracle s u h
    cases key with
    | none => exact absurd h (by simp [extractBlogContent])
    | some k =>
      unfold extractBlogContent at h
      simp only [Except.ok.injEq, Prod.mk.injEq] at h
      rw [← h.2]
      exact blogContentGo_inv prompt oracle chunks.enum ([], zeroUsage) rfl

/-- Witness for Claim C10 at concrete inputs: the empty job and a
one-segment fold. -/
theorem claim_C10_witness :
    usageInv zeroUsage ∧
      usageInv (chunksFoldGo (fun _ => []) "f.pdf".data ([], zeroUsage)
        [(⟨"hi".data, "1".data, 1⟩, some "hello world".data)]).2 :=
  ⟨claim_C10.1 (some []) (fun _ => []) "f.pdf".data [] [] zeroUsage rfl,
    claim_C10.2.2.2.1 (fun _ => []) "f.pdf".data ([], zeroUsage)
      [(⟨"hi".data, "1".data, 1⟩, some "hello world".data)] rfl⟩

end OgTools
